import Mathlib

/-!
# gr-osmosdr, SDRplay source block (`lib/sdrplay/sdrplay_source_c.cc`)

A shallow embedding of the SDRplay source block: the device record, the
carry-over sample buffer, the pull operation `work`, and the configuration
operations, followed by theorems about them.

Modelling conventions.

* `int` is `Int` (no claim below reaches the 32-bit range); `double` is `ℚ`,
  the finite values (NaN and the infinities are outside the model); `bool` is
  `Bool`.  Comparisons of `double` values are exact.  The three subtractions
  whose result the block tests or converts, `rate - _dev->fsHz`,
  `freq - _dev->rfHz` and `_dev->maxGain - gain`, are IEEE 754 binary64
  subtractions: the exact difference rounded to the nearest `double`, ties to
  even (`fsub`); overflow of a difference to an infinity is not modelled.  The
  quotients `fsHz / 1e6` and `rfHz / 1e6` are only handed to `mir_sdr_Init`
  and are recorded as the exact quotients.
* The vendor driver (`mir_sdr_*`) is external.  Its answers are given by a
  `Driver` oracle (what the k-th `mir_sdr_Init` negotiates, what the k-th
  `mir_sdr_ReadPacket` delivers and which status it reports); the calls the
  block makes are recorded, with their arguments, in the `calls` log.
* `_bufi` and `_bufq` are lists whose length is the capacity of the storage;
  reading `_bufi[i]` outside `0 ≤ i < capacity` is reported as
  `Fault.outOfBounds` instead of being given a value.
* An output sample `gr_complex(float(i) * (1.0f/2048.0f), float(q) * (1.0f/2048.0f))`
  is exact for 16-bit `i`, `q` (a multiplication by a power of two), so it is
  the pair of rationals `i/2048`, `q/2048`.
* The mutex, the diagnostic printing and the unused out-parameters of
  `mir_sdr_ReadPacket` (`sampNum`, `grChanged`, `rfChanged`, `fsChanged`) carry
  no state in a sequential model and are left out.
-/

namespace Sdrplay

/-! ## Data model -/

/-- Bandwidth codes of the vendor header (`mir_sdr_Bw_MHzT`), the eight the block assigns. -/
inductive mir_sdr_Bw_MHzT where
  | mir_sdr_BW_0_200
  | mir_sdr_BW_0_300
  | mir_sdr_BW_0_600
  | mir_sdr_BW_1_536
  | mir_sdr_BW_5_000
  | mir_sdr_BW_6_000
  | mir_sdr_BW_7_000
  | mir_sdr_BW_8_000
  deriving DecidableEq, Repr

/-- IF modes of the vendor header (`mir_sdr_If_kHzT`); the block only ever uses zero-IF. -/
inductive mir_sdr_If_kHzT where
  | mir_sdr_IF_Zero
  | mir_sdr_IF_0_450
  | mir_sdr_IF_1_620
  | mir_sdr_IF_2_048
  deriving DecidableEq, Repr

open mir_sdr_Bw_MHzT mir_sdr_If_kHzT

/-- The record `struct sdrplay_dev`. -/
structure sdrplay_dev where
  gRdB : Int
  gain_dB : ℚ
  fsHz : ℚ
  rfHz : ℚ
  bwType : mir_sdr_Bw_MHzT
  ifType : mir_sdr_If_kHzT
  samplesPerPacket : Int
  maxGain : Int
  minGain : Int
  dcMode : Int
  deriving DecidableEq

def SDRPLAY_AM_MIN : ℚ := 150000
def SDRPLAY_AM_MAX : ℚ := 30000000
def SDRPLAY_FM_MIN : ℚ := 64000000
def SDRPLAY_FM_MAX : ℚ := 108000000
def SDRPLAY_B3_MIN : ℚ := 162000000
def SDRPLAY_B3_MAX : ℚ := 240000000
def SDRPLAY_B45_MIN : ℚ := 470000000
def SDRPLAY_B45_MAX : ℚ := 960000000
def SDRPLAY_L_MIN : ℚ := 1450000000
def SDRPLAY_L_MAX : ℚ := 1675000000

def SDRPLAY_MAX_BUF_SIZE : Nat := 504

/-- The value `WORK_DONE` of the host framework (`gr::block`), returned at end of stream. -/
def WORK_DONE : Int := -1

/-- One call of the block into the vendor driver, with the arguments passed. -/
inductive DriverCall where
  | Init (gRdB : Int) (fsMHz rfMHz : ℚ) (bwType : mir_sdr_Bw_MHzT) (ifType : mir_sdr_If_kHzT)
  | Uninit
  | ReadPacket
  | SetFs (dfsHz : ℚ) (abs syncUpdate reCal : Int)
  | SetRf (drfHz : ℚ) (abs syncUpdate : Int)
  | SetGr (gRdB abs syncUpdate : Int)
  | SetDcMode (dcCal speedUp : Int)
  deriving DecidableEq

/-- What one `mir_sdr_ReadPacket` does: the status it returns (`0` is
`mir_sdr_Success`) and the samples it stores at the start of the two buffers. -/
structure ReadResult where
  status : Int
  xi : List Int
  xq : List Int
  deriving DecidableEq

/-- The environment: `spp k` is what the k-th `mir_sdr_Init` stores through
`&samplesPerPacket` (`none`: the field is left as it was), `pkt k` is what the
k-th `mir_sdr_ReadPacket` does. -/
structure Driver where
  spp : Nat → Option Int
  pkt : Nat → ReadResult

/-- The object `sdrplay_source_c`: the device record, the flags, the two
sample buffers and the carry-over offset, together with the driver calls made
so far (`inits` and `reads` count the `mir_sdr_Init` and `mir_sdr_ReadPacket`
calls among them). -/
structure sdrplay_source_c where
  _dev : sdrplay_dev
  _running : Bool
  _uninit : Bool
  _auto_gain : Bool
  _bufi : List Int
  _bufq : List Int
  _buf_offset : Int
  inits : Nat
  reads : Nat
  calls : List DriverCall
  deriving DecidableEq

/-- An output item `gr_complex`. -/
structure gr_complex where
  re : ℚ
  im : ℚ
  deriving DecidableEq

/-- Ways in which a run of `work` has no defined result. -/
inductive Fault where
  | outOfBounds
  | diverges
  deriving DecidableEq, Repr

/-! ## Gain limits -/

/-- The function `sdrplay_source_c::set_gain_limits`, on the device record. -/
def set_gain_limits (dev : sdrplay_dev) (freq : ℚ) : sdrplay_dev :=
  if freq ≤ SDRPLAY_AM_MAX then { dev with minGain := -4, maxGain := 98 }
  else if freq ≤ SDRPLAY_FM_MAX then { dev with minGain := 1, maxGain := 103 }
  else if freq ≤ SDRPLAY_B3_MAX then { dev with minGain := 5, maxGain := 107 }
  else if freq ≤ SDRPLAY_B45_MAX then { dev with minGain := 9, maxGain := 94 }
  else if freq ≤ SDRPLAY_L_MAX then { dev with minGain := 24, maxGain := 105 }
  else dev

/-! ## The driver calls and `reinit_device` -/

/-- Appends one driver call to the log. -/
def logCall (s : sdrplay_source_c) (c : DriverCall) : sdrplay_source_c :=
  { s with calls := s.calls ++ [c] }

/-- The call `mir_sdr_Init(gRdB, fsHz / 1e6, rfHz / 1e6, bwType, ifType, &samplesPerPacket)`;
its return status is not looked at by the block. -/
def mir_sdr_Init (d : Driver) (s : sdrplay_source_c) : sdrplay_source_c :=
  { s with
    _dev := { s._dev with samplesPerPacket := (d.spp s.inits).getD s._dev.samplesPerPacket }
    inits := s.inits + 1
    calls := s.calls ++
      [DriverCall.Init s._dev.gRdB (s._dev.fsHz / 1000000) (s._dev.rfHz / 1000000) s._dev.bwType s._dev.ifType] }

/-- The function `sdrplay_source_c::reinit_device`. -/
def reinit_device (d : Driver) (s : sdrplay_source_c) : sdrplay_source_c :=
  let s1 := if s._running then logCall s DriverCall.Uninit else s
  let s2 := mir_sdr_Init d s1
  let s3 := if s2._dev.dcMode ≠ 0 then logCall s2 (DriverCall.SetDcMode 4 1) else s2
  { s3 with _buf_offset := 0 }

/-! ## The pull operation `work` -/

/-- The output item built from one buffered I/Q pair. -/
def toComplex (i q : Int) : gr_complex :=
  ⟨(i : ℚ) * (1 / 2048), (q : ℚ) * (1 / 2048)⟩

/-- The expression `gr_complex(float(_bufi[i]) * (1.0f/2048.0f), float(_bufq[i]) * (1.0f/2048.0f))`;
an index outside the storage has no defined value. -/
def sampleAt (bufi bufq : List Int) (i : Int) : Except Fault gr_complex :=
  if 0 ≤ i then
    match bufi[i.toNat]?, bufq[i.toNat]? with
    | some a, some b => Except.ok (toComplex a b)
    | _, _ => Except.error Fault.outOfBounds
  else Except.error Fault.outOfBounds

/-- Copies `k` consecutive items starting at index `i` to the output. -/
def copyLoop (bufi bufq : List Int) : Nat → Int → Except Fault (List gr_complex)
  | 0, _ => Except.ok []
  | k + 1, i => do
    let x ← sampleAt bufi bufq i
    let r ← copyLoop bufi bufq k (i + 1)
    pure (x :: r)

/-- The loop `for (int i = lo; i < hi; i++) *out++ = gr_complex(...)` over the two buffers. -/
def copyOut (bufi bufq : List Int) (lo hi : Int) : Except Fault (List gr_complex) :=
  copyLoop bufi bufq (hi - lo).toNat lo

/-- Storing `xs` at the start of a buffer of fixed capacity. -/
def store (xs buf : List Int) : List Int :=
  (xs ++ buf.drop xs.length).take buf.length

/-- The call `mir_sdr_ReadPacket(_bufi.data(), _bufq.data(), ...)`; its return
status is not looked at by the block. -/
def mir_sdr_ReadPacket (d : Driver) (s : sdrplay_source_c) : sdrplay_source_c :=
  { s with
    _bufi := store (d.pkt s.reads).xi s._bufi
    _bufq := store (d.pkt s.reads).xq s._bufq
    reads := s.reads + 1
    calls := s.calls ++ [DriverCall.ReadPacket] }

/-- The loop `while ((cnt - samplesPerPacket) >= 0)` of `work`, run for at
most `fuel` iterations; it yields the state, the remaining count and the items
written.  Running out of fuel with the condition still true is `Fault.diverges`. -/
def work_loop (d : Driver) : Nat → sdrplay_source_c → Int →
    Except Fault (sdrplay_source_c × Int × List gr_complex)
  | 0, s, cnt =>
    if 0 ≤ cnt - s._dev.samplesPerPacket then Except.error Fault.diverges
    else Except.ok (s, cnt, [])
  | fuel + 1, s, cnt =>
    if 0 ≤ cnt - s._dev.samplesPerPacket then do
      let s1 := mir_sdr_ReadPacket d s
      let xs ← copyOut s1._bufi s1._bufq 0 s1._dev.samplesPerPacket
      let r ← work_loop d fuel s1 (cnt - s1._dev.samplesPerPacket)
      pure (r.1, r.2.1, xs ++ r.2.2)
    else Except.ok (s, cnt, [])

/-- What a call of `work` leaves behind: the object, the items written through
`out` in order, and the returned count. -/
structure WorkResult where
  state : sdrplay_source_c
  out : List gr_complex
  ret : Int
  deriving DecidableEq

/-- The function `sdrplay_source_c::work`.  The full-packet loop is given
`cnt + 1` iterations, more than it can use when `samplesPerPacket ≥ 1`. -/
def work (d : Driver) (s : sdrplay_source_c) (noutput_items : Int) : Except Fault WorkResult :=
  if s._uninit then Except.ok ⟨s, [], WORK_DONE⟩
  else
    let s0 := if !s._running then { reinit_device d s with _running := true } else s
    do
      let head ← if s0._buf_offset ≠ 0 then do
            let xs ← copyOut s0._bufi s0._bufq s0._buf_offset s0._dev.samplesPerPacket
            pure (xs, noutput_items - (s0._dev.samplesPerPacket - s0._buf_offset))
          else pure ([], noutput_items)
      let r ← work_loop d (head.2.toNat + 1) s0 head.2
      let s1 := { r.1 with _buf_offset := 0 }
      let cnt := r.2.1
      if cnt ≠ 0 then do
        let s2 := mir_sdr_ReadPacket d s1
        let xs ← copyOut s2._bufi s2._bufq 0 cnt
        pure ⟨{ s2 with _buf_offset := cnt }, head.1 ++ r.2.2 ++ xs, noutput_items⟩
      else pure ⟨s1, head.1 ++ r.2.2, noutput_items⟩

/-- Runs `work` once per request, in order, collecting what each call wrote. -/
def workSeq (d : Driver) : sdrplay_source_c → List Int →
    Except Fault (sdrplay_source_c × List (List gr_complex))
  | s, [] => Except.ok (s, [])
  | s, n :: ns => do
    let w ← work d s n
    let r ← workSeq d w.state ns
    pure (r.1, w.out :: r.2)

/-! ## Double-precision arithmetic -/

/-- Floor of the binary logarithm of `n ≥ 1` by repeated halving; `fuel`
bounds the number of halvings. -/
def log2F : Nat → Nat → Nat
  | 0, _ => 0
  | fuel + 1, n => if n < 2 then 0 else log2F fuel (n / 2) + 1

/-- The binary exponent of a rational `x > 0`: the `e` with `2^e ≤ x < 2^(e+1)`. -/
def ilog2 (x : ℚ) : Int :=
  let e0 : Int := (log2F x.num.natAbs x.num.natAbs : Int) - (log2F x.den x.den : Int)
  if (2 : ℚ) ^ e0 ≤ x then e0 else e0 - 1

/-- Rounding to the nearest integer, a tie going to the even neighbour. -/
def roundEven (y : ℚ) : Int :=
  if y - (⌊y⌋ : ℚ) < 1 / 2 then ⌊y⌋
  else if 1 / 2 < y - (⌊y⌋ : ℚ) then ⌊y⌋ + 1
  else if ⌊y⌋ % 2 = 0 then ⌊y⌋ else ⌊y⌋ + 1

/-- The `double` nearest to the exact value `x` (IEEE 754 binary64, round to
nearest, ties to even): a multiple of `2^(e-52)`, where `e` is the binary
exponent of `|x|`, or `-1022` for a subnormal result. -/
def fl (x : ℚ) : ℚ :=
  if x = 0 then 0
  else (roundEven (x / (2 : ℚ) ^ (max (ilog2 |x|) (-1022) - 52)) : ℚ)
    * (2 : ℚ) ^ (max (ilog2 |x|) (-1022) - 52)

/-- The `double` subtraction `a - b`. -/
def fsub (a b : ℚ) : ℚ := fl (a - b)

/-! ## The configuration operations -/

/-- The function `sdrplay_source_c::get_sample_rate`. -/
def get_sample_rate (s : sdrplay_source_c) : ℚ :=
  if s._running then s._dev.fsHz else s._dev.fsHz

/-- The function `sdrplay_source_c::set_sample_rate`. -/
def set_sample_rate (d : Driver) (s : sdrplay_source_c) (rate : ℚ) : sdrplay_source_c × ℚ :=
  let diff := fsub rate s._dev.fsHz
  let s1 := { s with _dev := { s._dev with fsHz := rate } }
  let s2 :=
    if s1._running then
      if |diff| < 10000 then logCall s1 (DriverCall.SetFs diff 0 0 0)
      else reinit_device d s1
    else s1
  (s2, get_sample_rate s2)

/-- The function `sdrplay_source_c::get_center_freq`. -/
def get_center_freq (s : sdrplay_source_c) : ℚ :=
  if s._running then s._dev.rfHz else s._dev.rfHz

/-- The function `sdrplay_source_c::set_center_freq`. -/
def set_center_freq (d : Driver) (s : sdrplay_source_c) (freq : ℚ) : sdrplay_source_c × ℚ :=
  let diff := fsub freq s._dev.rfHz
  let s1 := { s with _dev := set_gain_limits { s._dev with rfHz := freq } freq }
  let s2 :=
    if s1._running then
      if |diff| < 10000 then logCall s1 (DriverCall.SetRf diff 0 0)
      else reinit_device d s1
    else s1
  (s2, get_center_freq s2)

/-- The function `sdrplay_source_c::get_freq_corr`. -/
def get_freq_corr (_s : sdrplay_source_c) : ℚ := 0

/-- The function `sdrplay_source_c::set_freq_corr`. -/
def set_freq_corr (s : sdrplay_source_c) (_ppm : ℚ) : sdrplay_source_c × ℚ :=
  (s, get_freq_corr s)

/-- The loop of `sdrplay_source_c::get_gain_range`:
`for (int i = minGain; i < maxGain; i++) range += range_t((float)i)`. -/
def get_gain_range (s : sdrplay_source_c) : List Int :=
  (List.range (s._dev.maxGain - s._dev.minGain).toNat).map
    (fun (k : Nat) => s._dev.minGain + (k : Int))

/-- The function `sdrplay_source_c::get_gain_mode`. -/
def get_gain_mode (s : sdrplay_source_c) : Bool := s._auto_gain

/-- The function `sdrplay_source_c::set_gain_mode`. -/
def set_gain_mode (s : sdrplay_source_c) (automatic : Bool) : sdrplay_source_c × Bool :=
  let s1 := { s with _auto_gain := automatic }
  (s1, get_gain_mode s1)

/-- The conversion `(int)x` of a `double`: truncation towards zero. -/
def truncToInt (x : ℚ) : Int := if 0 ≤ x then ⌊x⌋ else ⌈x⌉

/-- The function `sdrplay_source_c::get_gain`. -/
def get_gain (s : sdrplay_source_c) : ℚ :=
  if s._running then s._dev.gain_dB else s._dev.gain_dB

/-- The function `sdrplay_source_c::set_gain`. -/
def set_gain (s : sdrplay_source_c) (gain : ℚ) : sdrplay_source_c × ℚ :=
  let dev1 := { s._dev with gain_dB := gain }
  let dev2 := if gain < (dev1.minGain : ℚ) then { dev1 with gain_dB := (dev1.minGain : ℚ) } else dev1
  let dev3 := if gain > (dev2.maxGain : ℚ) then { dev2 with gain_dB := (dev2.maxGain : ℚ) } else dev2
  let dev4 := { dev3 with gRdB := truncToInt (fsub (dev3.maxGain : ℚ) gain) }
  let s1 := { s with _dev := dev4 }
  let s2 := if s1._running then logCall s1 (DriverCall.SetGr s1._dev.gRdB 1 0) else s1
  (s2, get_gain s2)

/-- The function `sdrplay_source_c::get_antenna`. -/
def get_antenna (_s : sdrplay_source_c) : String := "RX"

/-- The function `sdrplay_source_c::set_antenna`. -/
def set_antenna (s : sdrplay_source_c) (_antenna : String) : sdrplay_source_c × String :=
  (s, get_antenna s)

/-- Modelled from the spec: the DC-offset mode "off" of `osmosdr::source`,
whose header is not among the sources; the three modes are numbered in the
order off, manual, automatic. -/
def DCOffsetOff : Int := 0

/-- Modelled from the spec: the DC-offset mode "manual" of `osmosdr::source`. -/
def DCOffsetManual : Int := 1

/-- Modelled from the spec: the DC-offset mode "automatic" of `osmosdr::source`. -/
def DCOffsetAutomatic : Int := 2

/-- The function `sdrplay_source_c::set_dc_offset_mode`. -/
def set_dc_offset_mode (s : sdrplay_source_c) (mode : Int) : sdrplay_source_c :=
  if DCOffsetOff = mode then
    let s1 := { s with _dev := { s._dev with dcMode := 0 } }
    if s1._running then logCall s1 (DriverCall.SetDcMode 4 1) else s1
  else if DCOffsetManual = mode then
    let s1 := { s with _dev := { s._dev with dcMode := 0 } }
    if s1._running then logCall s1 (DriverCall.SetDcMode 4 1) else s1
  else if DCOffsetAutomatic = mode then
    let s1 := { s with _dev := { s._dev with dcMode := 1 } }
    if s1._running then logCall s1 (DriverCall.SetDcMode 4 1) else s1
  else s

/-- The function `sdrplay_source_c::get_bandwidth`. -/
def get_bandwidth (s : sdrplay_source_c) : ℚ :=
  if s._dev.bwType = mir_sdr_BW_0_200 then 200000
  else if s._dev.bwType = mir_sdr_BW_0_300 then 300000
  else if s._dev.bwType = mir_sdr_BW_0_600 then 600000
  else if s._dev.bwType = mir_sdr_BW_1_536 then 1536000
  else if s._dev.bwType = mir_sdr_BW_5_000 then 5000000
  else if s._dev.bwType = mir_sdr_BW_6_000 then 6000000
  else if s._dev.bwType = mir_sdr_BW_7_000 then 7000000
  else 8000000

/-- The function `sdrplay_source_c::set_bandwidth`. -/
def set_bandwidth (d : Driver) (s : sdrplay_source_c) (bandwidth : ℚ) : sdrplay_source_c × ℚ :=
  let bw :=
    if bandwidth ≤ 200000 then mir_sdr_BW_0_200
    else if bandwidth ≤ 300000 then mir_sdr_BW_0_300
    else if bandwidth ≤ 600000 then mir_sdr_BW_0_600
    else if bandwidth ≤ 1536000 then mir_sdr_BW_1_536
    else if bandwidth ≤ 5000000 then mir_sdr_BW_5_000
    else if bandwidth ≤ 6000000 then mir_sdr_BW_6_000
    else if bandwidth ≤ 7000000 then mir_sdr_BW_7_000
    else mir_sdr_BW_8_000
  let s1 := { s with _dev := { s._dev with bwType := bw } }
  let s2 := if s1._running then reinit_device d s1 else s1
  (s2, get_bandwidth s2)

/-- The values listed by `sdrplay_source_c::get_bandwidth_range`. -/
def get_bandwidth_range : List ℚ :=
  [200000, 300000, 600000, 1536000, 5000000, 6000000, 7000000, 8000000]

/-! ## Construction -/

/-- The constructor `sdrplay_source_c::sdrplay_source_c`, after a successful
`malloc`.  The storage reserved for the two buffers (`SDRPLAY_MAX_BUF_SIZE`
items each) starts with whatever `memi`, `memq` hold.  The limits are set by
`set_gain_limits` on a record whose limit fields are not yet set (`lim0`);
the call overwrites both. -/
def make_sdrplay_source_c (memi memq : Nat → Int) (lim0 : Int × Int) : sdrplay_source_c :=
  let dev0 : sdrplay_dev :=
    { gRdB := 60, gain_dB := 0, fsHz := 2048000, rfHz := 200000000,
      bwType := mir_sdr_BW_1_536, ifType := mir_sdr_IF_Zero,
      samplesPerPacket := 0, maxGain := lim0.2, minGain := lim0.1, dcMode := 0 }
  let dev1 := set_gain_limits dev0 dev0.rfHz
  let dev2 := { dev1 with gain_dB := ((dev1.maxGain - dev1.gRdB : Int) : ℚ) }
  { _dev := dev2, _running := false, _uninit := false, _auto_gain := false,
    _bufi := (List.range SDRPLAY_MAX_BUF_SIZE).map memi,
    _bufq := (List.range SDRPLAY_MAX_BUF_SIZE).map memq,
    _buf_offset := 0, inits := 0, reads := 0, calls := [] }

/-! ## Reference values for the statements -/

/-- The output items of a pair of I and Q sample lists: each component times `1/2048`. -/
def scaled (xi xq : List Int) : List gr_complex := List.zipWith toComplex xi xq

/-- The output items of the k-th packet the driver delivers. -/
def packet (d : Driver) (k : Nat) : List gr_complex := scaled (d.pkt k).xi (d.pkt k).xq

/-- A driver that negotiates packets of 4 samples and delivers, as its k-th
packet, I samples `10k+1, ..., 10k+4` and Q samples their negatives, with
status `mir_sdr_Success`. -/
def exDriver : Driver :=
  { spp := fun _ => some 4
    pkt := fun k => ⟨0, [10 * k + 1, 10 * k + 2, 10 * k + 3, 10 * k + 4],
      [-(10 * k + 1), -(10 * k + 2), -(10 * k + 3), -(10 * k + 4)]⟩ }

/-- A freshly constructed object whose reserved storage holds zeros. -/
def exFresh : sdrplay_source_c := make_sdrplay_source_c (fun _ => 0) (fun _ => 0) (0, 0)

/-- The pair `(minGain, maxGain)` of a device record. -/
def limitsOf (dev : sdrplay_dev) : Int × Int := (dev.minGain, dev.maxGain)

/-- The fresh object after the lazy start of `work`: initialised by
`exDriver` (packet size 4) and marked running. -/
def exRunning : sdrplay_source_c := { reinit_device exDriver exFresh with _running := true }

/-- The running example object after `set_center_freq(2^-44)`: the change
from 200 MHz reinitialises, and the stored frequency is the `double` `2^-44`. -/
def exTinyFreq : sdrplay_source_c := (set_center_freq exDriver exRunning (1 / 2 ^ 44)).1

/-- The running example object after `set_sample_rate(2^-44)`, which
reinitialises, and then `work(2)`, which reads one packet of 4 and carries its
last two items over (`_buf_offset = 2`). -/
def exTinyRate : sdrplay_source_c :=
  match work exDriver (set_sample_rate exDriver exRunning (1 / 2 ^ 44)).1 2 with
  | Except.ok w => w.state
  | Except.error _ => exRunning

/-- The eight supported bandwidths in Hz, each with its code, in increasing order. -/
def supportedBandwidths : List (ℚ × mir_sdr_Bw_MHzT) :=
  [(200000, mir_sdr_BW_0_200), (300000, mir_sdr_BW_0_300), (600000, mir_sdr_BW_0_600),
   (1536000, mir_sdr_BW_1_536), (5000000, mir_sdr_BW_5_000), (6000000, mir_sdr_BW_6_000),
   (7000000, mir_sdr_BW_7_000), (8000000, mir_sdr_BW_8_000)]

/-- The code a bandwidth request resolves to, in the words of the
specification: the smallest supported code at or above the request, and the
largest code for a request above them all. -/
def resolvedCode (b : ℚ) : mir_sdr_Bw_MHzT :=
  ((supportedBandwidths.find? (fun p => decide (b ≤ p.1))).map Prod.snd).getD mir_sdr_BW_8_000

/-- A driver like `exDriver` whose reads, from the second on, report the
fault status `1` (`mir_sdr_Fail`) and store nothing. -/
def exFaultDriver : Driver :=
  { spp := fun _ => some 4
    pkt := fun k => if k = 0 then ⟨0, [1, 2, 3, 4], [-1, -2, -3, -4]⟩ else ⟨1, [], []⟩ }

/-- The invariant `minGain ≤ gain_dB ≤ maxGain`. -/
def gainInBounds (s : sdrplay_source_c) : Prop :=
  (s._dev.minGain : ℚ) ≤ s._dev.gain_dB ∧ s._dev.gain_dB ≤ (s._dev.maxGain : ℚ)

instance (s : sdrplay_source_c) : Decidable (gainInBounds s) := by
  unfold gainInBounds
  exact inferInstance

/-- The driver `d` with the status of its k-th read replaced by `st k`. -/
def withStatus (d : Driver) (st : Nat → Int) : Driver :=
  { spp := d.spp
    pkt := fun k => { d.pkt k with status := st k } }

/-- The driver calls that open or close the device: `mir_sdr_Init` and `mir_sdr_Uninit`. -/
def isInitOrUninit : DriverCall → Bool
  | DriverCall.Init _ _ _ _ _ => true
  | DriverCall.Uninit => true
  | _ => false

/-- The stream state: the carry-over offset, the two sample buffers, the
negotiated packet size and the running flag. -/
def streamState (s : sdrplay_source_c) : Int × List Int × List Int × Int × Bool :=
  (s._buf_offset, s._bufi, s._bufq, s._dev.samplesPerPacket, s._running)

/-- The invariant `0 ≤ _buf_offset ≤ samplesPerPacket`. -/
def offsetInv (s : sdrplay_source_c) : Prop :=
  0 ≤ s._buf_offset ∧ s._buf_offset ≤ s._dev.samplesPerPacket

instance (s : sdrplay_source_c) : Decidable (offsetInv s) := by
  unfold offsetInv
  exact inferInstance

/-- The relation `gRdB = round(maxGain - gain_dB)` between the register value
and the stored gain. -/
def gRdBConsistent (s : sdrplay_source_c) : Prop :=
  s._dev.gRdB = round ((s._dev.maxGain : ℚ) - s._dev.gain_dB)

instance (s : sdrplay_source_c) : Decidable (gRdBConsistent s) := by
  unfold gRdBConsistent
  exact inferInstance

/-- The relation `gRdB = (int)(maxGain - gain_dB)` between the register value
and the stored gain, the difference being the `double` difference. -/
def gRdBTruncated (s : sdrplay_source_c) : Prop :=
  s._dev.gRdB = truncToInt (fsub (s._dev.maxGain : ℚ) s._dev.gain_dB)

instance (s : sdrplay_source_c) : Decidable (gRdBTruncated s) := by
  unfold gRdBTruncated
  exact inferInstance

/-- The step from `s` to `t` leaves the stream state as it is and makes no
`mir_sdr_Init` and no `mir_sdr_Uninit` call. -/
def quietStep (s t : sdrplay_source_c) : Prop :=
  streamState t = streamState s ∧ t.inits = s.inits ∧ t.reads = s.reads ∧
  ∃ l, t.calls = s.calls ++ l ∧ ∀ c ∈ l, isInitOrUninit c = false

/-- The i-th item of the sample stream of a driver whose packets have `P`
samples: item `i mod P` of packet `i div P`, each component times `1/2048`. -/
def streamAt (d : Driver) (P : Nat) (i : Nat) : gr_complex :=
  toComplex ((d.pkt (i / P)).xi.getD (i % P) 0) ((d.pkt (i / P)).xq.getD (i % P) 0)

/-- The items of the `m` packets from the `r`-th on, in arrival order. -/
def packetsFrom (d : Driver) (r m : Nat) : List gr_complex :=
  ((List.range m).map (fun j => packet d (r + j))).flatten

/-- The requests `ns`, met in order from carry-over offset `o`, are all
positive and each is at least as long as the carried-over tail it meets. -/
def admissible (P : Nat) : Int → List Int → Prop
  | _, [] => True
  | o, n :: ns => 0 < n ∧ (o ≠ 0 → (P : Int) - o ≤ n) ∧ admissible P ((o + n) % (P : Int)) ns

/-- The number of stream items put out so far, counted from packet 0: all of
the packets read, less the tail carried over. -/
def streamPos (P : Nat) (s : sdrplay_source_c) : Nat :=
  if s._buf_offset = 0 then s.reads * P else (s.reads - 1) * P + s._buf_offset.toNat

/-- A running session whose packet size `P ≥ 1` fits the buffers, whose
carry-over offset is in `[0, P)`, and whose buffers, when a tail is carried
over, hold the packet read last. -/
def StreamInv (d : Driver) (P : Nat) (s : sdrplay_source_c) : Prop :=
  s._uninit = false ∧ s._running = true ∧ s._dev.samplesPerPacket = (P : Int) ∧ 1 ≤ P ∧
  P ≤ s._bufi.length ∧ P ≤ s._bufq.length ∧
  0 ≤ s._buf_offset ∧ s._buf_offset < (P : Int) ∧
  (s._buf_offset ≠ 0 →
    1 ≤ s.reads ∧ (scaled s._bufi s._bufq).take P = packet d (s.reads - 1))

/-- The part of `work` after the carry-over branch, which has left the items
`head.1` and the count `head.2`: the full-packet loop and the final partial packet. -/
def work_rest (d : Driver) (s0 : sdrplay_source_c) (noutput_items : Int)
    (head : List gr_complex × Int) : Except Fault WorkResult := do
  let r ← work_loop d (head.2.toNat + 1) s0 head.2
  let s1 := { r.1 with _buf_offset := 0 }
  let cnt := r.2.1
  if cnt ≠ 0 then do
    let s2 := mir_sdr_ReadPacket d s1
    let xs ← copyOut s2._bufi s2._bufq 0 cnt
    pure ⟨{ s2 with _buf_offset := cnt }, head.1 ++ r.2.2 ++ xs, noutput_items⟩
  else pure ⟨s1, head.1 ++ r.2.2, noutput_items⟩

deriving instance DecidableEq for Except

/-! ## Lemmas on the double-precision rounding -/

theorem log2F_spec : ∀ (fuel n : Nat), 1 ≤ n → n ≤ fuel →
    2 ^ log2F fuel n ≤ n ∧ n < 2 ^ (log2F fuel n + 1) := by
  intro fuel
  induction fuel with
  | zero => intro n h1 h2; omega
  | succ f ih =>
    intro n h1 h2
    unfold log2F
    by_cases h : n < 2
    · simp only [h, if_true]
      constructor
      · simpa using h1
      · simpa using h
    · simp only [h, if_false]
      have := ih (n / 2) (by omega) (by omega)
      obtain ⟨a, b⟩ := this
      rw [pow_succ, pow_succ]
      constructor
      · omega
      · rw [pow_succ] at b
        omega

theorem ilog2_spec (x : ℚ) (hx : 0 < x) :
    (2 : ℚ) ^ ilog2 x ≤ x ∧ x < (2 : ℚ) ^ (ilog2 x + 1) := by
  have hn : 0 < x.num := Rat.num_pos.mpr hx
  have hN : 1 ≤ x.num.natAbs := by omega
  have hD : 1 ≤ x.den := x.den_pos
  obtain ⟨a1, a2⟩ := log2F_spec x.num.natAbs x.num.natAbs hN le_rfl
  obtain ⟨b1, b2⟩ := log2F_spec x.den x.den hD le_rfl
  set a := log2F x.num.natAbs x.num.natAbs with ha
  set b := log2F x.den x.den with hb
  have hxe : x = (x.num.natAbs : ℚ) / (x.den : ℚ) := by
    have h2 : (x.num.natAbs : ℚ) = (x.num : ℚ) := by
      rw [Nat.cast_natAbs, abs_of_pos hn]
    rw [h2]
    exact (Rat.num_div_den x).symm
  have hDq : (0 : ℚ) < (x.den : ℚ) := by exact_mod_cast hD
  have a1q : (2 : ℚ) ^ a ≤ (x.num.natAbs : ℚ) := by exact_mod_cast a1
  have a2q : (x.num.natAbs : ℚ) < (2 : ℚ) ^ (a + 1) := by exact_mod_cast a2
  have b1q : (2 : ℚ) ^ b ≤ (x.den : ℚ) := by exact_mod_cast b1
  have b2q : (x.den : ℚ) < (2 : ℚ) ^ (b + 1) := by exact_mod_cast b2
  have two : (2 : ℚ) ≠ 0 := by norm_num
  have pa : (0 : ℚ) < (2 : ℚ) ^ a := by positivity
  have pb : (0 : ℚ) < (2 : ℚ) ^ b := by positivity
  have e0 : (2 : ℚ) ^ ((a : ℤ) - (b : ℤ)) = (2 : ℚ) ^ a / (2 : ℚ) ^ b := by
    rw [zpow_sub₀ two, zpow_natCast, zpow_natCast]
  have up : x < (2 : ℚ) ^ a * 2 / (2 : ℚ) ^ b := by
    rw [hxe, div_lt_div_iff₀ hDq pb]
    rw [pow_succ] at a2q
    nlinarith
  have lo : (2 : ℚ) ^ a / ((2 : ℚ) ^ b * 2) < x := by
    rw [hxe, div_lt_div_iff₀ (by positivity) hDq]
    rw [pow_succ] at b2q
    nlinarith
  unfold ilog2
  simp only [← ha, ← hb]
  by_cases h : (2 : ℚ) ^ ((a : ℤ) - (b : ℤ)) ≤ x
  · rw [if_pos h]
    refine ⟨h, ?_⟩
    rw [zpow_add_one₀ two, e0]
    calc x < (2 : ℚ) ^ a * 2 / (2 : ℚ) ^ b := up
      _ = (2 : ℚ) ^ a / (2 : ℚ) ^ b * 2 := by ring
  · rw [if_neg h]
    constructor
    · rw [zpow_sub_one₀ two, e0]
      have : (2 : ℚ) ^ a / (2 : ℚ) ^ b * 2⁻¹ = (2 : ℚ) ^ a / ((2 : ℚ) ^ b * 2) := by
        field_simp
      rw [this]
      exact lo.le
    · rw [sub_add_cancel]
      exact lt_of_not_le h

theorem roundEven_le (y : ℚ) (k : Int) (h : y < (k : ℚ) + 1 / 2) : roundEven y ≤ k := by
  have hf : (⌊y⌋ : ℚ) ≤ y := Int.floor_le y
  have hk : ⌊y⌋ ≤ k := by
    have : (⌊y⌋ : ℚ) < (k : ℚ) + 1 := by linarith
    have : ⌊y⌋ < k + 1 := by exact_mod_cast this
    omega
  unfold roundEven
  by_cases h1 : y - (⌊y⌋ : ℚ) < 1 / 2
  · simp only [h1, if_true]; exact hk
  · have hne : ⌊y⌋ ≠ k := by
      intro e
      rw [e] at h1
      apply h1
      linarith
    have : ⌊y⌋ + 1 ≤ k := by omega
    simp only [h1, if_false]
    split_ifs <;> omega

theorem le_roundEven (y : ℚ) (k : Int) (h : (k : ℚ) - 1 / 2 < y) : k ≤ roundEven y := by
  have hf : y < (⌊y⌋ : ℚ) + 1 := Int.lt_floor_add_one y
  have hk : k - 1 ≤ ⌊y⌋ := by
    have : (k : ℚ) - 1 < (⌊y⌋ : ℚ) + 1 := by linarith
    have : k - 1 < ⌊y⌋ + 1 := by exact_mod_cast this
    omega
  unfold roundEven
  by_cases h1 : y - (⌊y⌋ : ℚ) < 1 / 2
  · have hne : ⌊y⌋ ≠ k - 1 := by
      intro e
      rw [e] at h1
      push_cast at h1
      linarith
    simp only [h1, if_true]
    omega
  · simp only [h1, if_false]
    split_ifs with h2 h3
    · omega
    · have e : y - (⌊y⌋ : ℚ) = 1 / 2 := le_antisymm (not_lt.mp h2) (not_lt.mp h1)
      have : (k : ℚ) < (⌊y⌋ : ℚ) + 1 := by linarith
      have : k < ⌊y⌋ + 1 := by exact_mod_cast this
      omega
    · omega

theorem roundEven_le_even (y : ℚ) (k : Int) (hk : k % 2 = 0) (h : y ≤ (k : ℚ) + 1 / 2) :
    roundEven y ≤ k := by
  rcases lt_or_eq_of_le h with h1 | h1
  · exact roundEven_le y k h1
  · have hfl : ⌊y⌋ = k := by
      rw [Int.floor_eq_iff]
      constructor <;> linarith
    unfold roundEven
    rw [hfl]
    have e : y - (k : ℚ) = 1 / 2 := by linarith
    rw [e]
    simp [hk]

theorem le_roundEven_even (y : ℚ) (k : Int) (hk : k % 2 = 0) (h : (k : ℚ) - 1 / 2 ≤ y) :
    k ≤ roundEven y := by
  rcases lt_or_eq_of_le h with h1 | h1
  · exact le_roundEven y k h1
  · have hfl : ⌊y⌋ = k - 1 := by
      rw [Int.floor_eq_iff]
      push_cast
      constructor <;> linarith
    unfold roundEven
    rw [hfl]
    have e : y - ((k - 1 : Int) : ℚ) = 1 / 2 := by push_cast; linarith
    rw [e]
    have : ¬ (k - 1) % 2 = 0 := by omega
    simp [this]

theorem roundEven_intCast (k : Int) : roundEven (k : ℚ) = k := by
  unfold roundEven
  simp

theorem roundEven_spec (y : ℚ) :
    (((roundEven y : Int) : ℚ) - 1 / 2 < y ∧ y < ((roundEven y : Int) : ℚ) + 1 / 2) ∨
    (roundEven y % 2 = 0 ∧ ((roundEven y : Int) : ℚ) - 1 / 2 ≤ y ∧
      y ≤ ((roundEven y : Int) : ℚ) + 1 / 2) := by
  have hf : (⌊y⌋ : ℚ) ≤ y := Int.floor_le y
  have hf2 : y < (⌊y⌋ : ℚ) + 1 := Int.lt_floor_add_one y
  unfold roundEven
  by_cases h1 : y - (⌊y⌋ : ℚ) < 1 / 2
  · rw [if_pos h1]
    left
    constructor <;> linarith
  · rw [if_neg h1]
    by_cases h2 : 1 / 2 < y - (⌊y⌋ : ℚ)
    · rw [if_pos h2]
      left
      push_cast
      constructor <;> linarith
    · rw [if_neg h2]
      have e : y - (⌊y⌋ : ℚ) = 1 / 2 := le_antisymm (not_lt.mp h2) (not_lt.mp h1)
      right
      by_cases h3 : ⌊y⌋ % 2 = 0
      · rw [if_pos h3]
        refine ⟨h3, ?_, ?_⟩ <;> linarith
      · rw [if_neg h3]
        refine ⟨by omega, ?_, ?_⟩ <;> push_cast <;> linarith

theorem roundEven_neg (y : ℚ) : roundEven (-y) = - roundEven y := by
  apply le_antisymm
  · rcases roundEven_spec y with ⟨a, b⟩ | ⟨c, a, b⟩
    · apply roundEven_le
      push_cast
      linarith
    · apply roundEven_le_even _ _ (by omega)
      push_cast
      linarith
  · rcases roundEven_spec y with ⟨a, b⟩ | ⟨c, a, b⟩
    · apply le_roundEven
      push_cast
      linarith
    · apply le_roundEven_even _ _ (by omega)
      push_cast
      linarith

theorem fl_neg (x : ℚ) : fl (-x) = - fl x := by
  unfold fl
  by_cases h : x = 0
  · simp [h]
  · have h2 : -x ≠ 0 := neg_ne_zero.mpr h
    rw [if_neg h, if_neg h2, abs_neg, neg_div, roundEven_neg]
    push_cast
    ring

/-- For `x > 0` the rounding unit is a power of two `u = 2^(e-52)` with
`e = max e1 (-1022)` and `2^e1 ≤ x < 2^(e1+1)`. -/
theorem fl_pos_eq (x : ℚ) (hx : 0 < x) :
    ∃ e1 : Int, (2 : ℚ) ^ e1 ≤ x ∧ x < (2 : ℚ) ^ (e1 + 1) ∧
      fl x = (roundEven (x / (2 : ℚ) ^ (max e1 (-1022) - 52)) : ℚ)
        * (2 : ℚ) ^ (max e1 (-1022) - 52) := by
  refine ⟨ilog2 x, (ilog2_spec x hx).1, (ilog2_spec x hx).2, ?_⟩
  unfold fl
  rw [if_neg hx.ne', abs_of_pos hx]

theorem fl_intCast_pos (n : Int) (h0 : 0 < n) (h : n < 2 ^ 53) : fl (n : ℚ) = n := by
  have hx : (0 : ℚ) < (n : ℚ) := by exact_mod_cast h0
  obtain ⟨e1, s1, s2, e⟩ := fl_pos_eq (n : ℚ) hx
  have two : (2 : ℚ) ≠ 0 := by norm_num
  have h1 : (1 : ℚ) ≤ (n : ℚ) := by exact_mod_cast h0
  have hq : (n : ℚ) < (2 : ℚ) ^ (53 : ℤ) := by
    have : (n : ℚ) < ((2 ^ 53 : Int) : ℚ) := by exact_mod_cast h
    norm_num at this ⊢
    exact this
  have he0 : 0 ≤ e1 := by
    by_contra hc
    have : (2 : ℚ) ^ (e1 + 1) ≤ (2 : ℚ) ^ (0 : ℤ) :=
      zpow_le_zpow_right₀ (by norm_num) (by omega)
    rw [zpow_zero] at this
    linarith
  have he52 : e1 ≤ 52 := by
    by_contra hc
    have : (2 : ℚ) ^ (53 : ℤ) ≤ (2 : ℚ) ^ e1 :=
      zpow_le_zpow_right₀ (by norm_num) (by omega)
    linarith
  rw [e, max_eq_left (by omega)]
  obtain ⟨m, hm⟩ : ∃ m : Nat, e1 - 52 = -(m : ℤ) := ⟨(52 - e1).toNat, by omega⟩
  rw [hm, zpow_neg, zpow_natCast, div_inv_eq_mul]
  have : (n : ℚ) * (2 : ℚ) ^ m = ((n * 2 ^ m : Int) : ℚ) := by push_cast; ring
  rw [this, roundEven_intCast]
  push_cast
  field_simp

/-- Integers of magnitude below `2^53` are `double` values. -/
theorem fl_intCast (n : Int) (h : |n| < 2 ^ 53) : fl (n : ℚ) = n := by
  rcases lt_trichotomy n 0 with h0 | h0 | h0
  · have h1 : fl ((-n : Int) : ℚ) = ((-n : Int) : ℚ) :=
      fl_intCast_pos (-n) (by omega) (by rw [abs_of_neg h0] at h; exact h)
    push_cast at h1
    rw [fl_neg] at h1
    linarith
  · rw [h0]
    simp [fl]
  · exact fl_intCast_pos n h0 (by rw [abs_of_pos h0] at h; exact h)

theorem fl_nonneg (x : ℚ) (hx : 0 < x) : 0 ≤ fl x := by
  obtain ⟨e1, s1, s2, e⟩ := fl_pos_eq x hx
  rw [e]
  have pu : (0 : ℚ) < (2 : ℚ) ^ (max e1 (-1022) - 52) := zpow_pos (by norm_num) _
  have : (0 : Int) ≤ roundEven (x / (2 : ℚ) ^ (max e1 (-1022) - 52)) := by
    apply le_roundEven
    have : 0 < x / (2 : ℚ) ^ (max e1 (-1022) - 52) := div_pos hx pu
    push_cast
    linarith
  have : (0 : ℚ) ≤ (roundEven (x / (2 : ℚ) ^ (max e1 (-1022) - 52)) : ℚ) := by exact_mod_cast this
  positivity

/-- The comparison `fl x < 10000` on positive `x`: the largest `double`
below `10000` is `10000 - 2^-39`, and the midpoint `10000 - 2^-40` rounds to
the even neighbour `10000`. -/
theorem fl_pos_lt_iff (x : ℚ) (hx : 0 < x) : fl x < 10000 ↔ x < 10000 - 1 / 2 ^ 40 := by
  obtain ⟨e1, s1, s2, e⟩ := fl_pos_eq x hx
  have two : (2 : ℚ) ≠ 0 := by norm_num
  rw [e]
  set u : ℚ := (2 : ℚ) ^ (max e1 (-1022) - 52) with hu
  have pu : (0 : ℚ) < u := zpow_pos (by norm_num) _
  rcases lt_trichotomy e1 13 with h | h | h
  · -- below the binade of 10000
    have hx2 : x < 10000 - 1 / 2 ^ 40 := by
      have : (2 : ℚ) ^ (e1 + 1) ≤ (2 : ℚ) ^ (13 : ℤ) :=
        zpow_le_zpow_right₀ (by norm_num) (by omega)
      have h13 : (2 : ℚ) ^ (13 : ℤ) = 8192 := by norm_num
      rw [h13] at this
      have : x < 8192 := lt_of_lt_of_le s2 this
      have : (8192 : ℚ) < 10000 - 1 / 2 ^ 40 := by norm_num
      linarith
    refine ⟨fun _ => hx2, fun _ => ?_⟩
    have hy : x / u < (2 : ℚ) ^ (53 : ℤ) := by
      rw [div_lt_iff₀ pu, hu, ← zpow_add₀ two]
      refine lt_of_lt_of_le s2 (zpow_le_zpow_right₀ (by norm_num) ?_)
      have := le_max_left e1 (-1022)
      omega
    have hR : roundEven (x / u) ≤ 2 ^ 53 := by
      apply roundEven_le
      have h53 : (2 : ℚ) ^ (53 : ℤ) = ((2 ^ 53 : Int) : ℚ) := by norm_num
      rw [h53] at hy
      linarith
    have hRq : (roundEven (x / u) : ℚ) ≤ (2 : ℚ) ^ (53 : ℤ) := by
      have : (roundEven (x / u) : ℚ) ≤ ((2 ^ 53 : Int) : ℚ) := by exact_mod_cast hR
      norm_num at this ⊢
      exact this
    have : (roundEven (x / u) : ℚ) * u ≤ (2 : ℚ) ^ (53 : ℤ) * u :=
      mul_le_mul_of_nonneg_right hRq pu.le
    have h2 : (2 : ℚ) ^ (53 : ℤ) * u ≤ (2 : ℚ) ^ (13 : ℤ) := by
      rw [hu, ← zpow_add₀ two]
      apply zpow_le_zpow_right₀ (by norm_num)
      have : max e1 (-1022) ≤ 12 := max_le (by omega) (by norm_num)
      omega
    have h13 : (2 : ℚ) ^ (13 : ℤ) = 8192 := by norm_num
    rw [h13] at h2
    linarith
  · -- the binade of 10000
    have hm : max e1 (-1022) - 52 = -39 := by rw [h]; rfl
    have hu2 : u = 1 / 2 ^ 39 := by
      rw [hu, hm]
      norm_num
    constructor
    · intro hfl
      by_contra hc
      have hc2 : 10000 - 1 / 2 ^ 40 ≤ x := not_lt.mp hc
      have : (10000 * 2 ^ 39 : Int) ≤ roundEven (x / u) := by
        apply le_roundEven_even _ _ (by norm_num)
        rw [hu2]
        push_cast
        rw [le_div_iff₀ (by positivity)]
        norm_num
        norm_num at hc2
        linarith
      have : ((10000 * 2 ^ 39 : Int) : ℚ) ≤ (roundEven (x / u) : ℚ) := by exact_mod_cast this
      have := mul_le_mul_of_nonneg_right this pu.le
      rw [hu2] at this hfl
      norm_num at this hfl
      linarith
    · intro hx2
      have : roundEven (x / u) ≤ (10000 * 2 ^ 39 - 1 : Int) := by
        apply roundEven_le
        rw [hu2]
        push_cast
        rw [div_lt_iff₀ (by positivity)]
        norm_num
        norm_num at hx2
        linarith
      have : (roundEven (x / u) : ℚ) ≤ ((10000 * 2 ^ 39 - 1 : Int) : ℚ) := by exact_mod_cast this
      have := mul_le_mul_of_nonneg_right this pu.le
      rw [hu2] at this ⊢
      norm_num at this ⊢
      linarith
  · -- above the binade of 10000
    have hx2 : ¬ x < 10000 - 1 / 2 ^ 40 := by
      have : (2 : ℚ) ^ (14 : ℤ) ≤ (2 : ℚ) ^ e1 :=
        zpow_le_zpow_right₀ (by norm_num) (by omega)
      have h14 : (2 : ℚ) ^ (14 : ℤ) = 16384 := by norm_num
      rw [h14] at this
      have : (10000 : ℚ) - 1 / 2 ^ 40 < 16384 := by norm_num
      linarith
    have hm : max e1 (-1022) = e1 := max_eq_left (by omega)
    have hfl : ¬ (roundEven (x / u) : ℚ) * u < 10000 := by
      have hy : (2 : ℚ) ^ (52 : ℤ) ≤ x / u := by
        rw [le_div_iff₀ pu, hu, ← zpow_add₀ two, hm]
        have : (52 : ℤ) + (e1 - 52) = e1 := by ring
        rw [this]
        exact s1
      have hR : (2 ^ 52 : Int) ≤ roundEven (x / u) := by
        apply le_roundEven
        have h52 : (2 : ℚ) ^ (52 : ℤ) = ((2 ^ 52 : Int) : ℚ) := by norm_num
        rw [h52] at hy
        linarith
      have hRq : (2 : ℚ) ^ (52 : ℤ) ≤ (roundEven (x / u) : ℚ) := by
        have : ((2 ^ 52 : Int) : ℚ) ≤ (roundEven (x / u) : ℚ) := by exact_mod_cast hR
        norm_num at this ⊢
        exact this
      have h1 := mul_le_mul_of_nonneg_right hRq pu.le
      have h2 : (2 : ℚ) ^ (14 : ℤ) ≤ (2 : ℚ) ^ (52 : ℤ) * u := by
        rw [hu, ← zpow_add₀ two, hm]
        apply zpow_le_zpow_right₀ (by norm_num)
        omega
      have h14 : (2 : ℚ) ^ (14 : ℤ) = 16384 := by norm_num
      rw [h14] at h2
      linarith
    exact ⟨fun a => absurd a hfl, fun a => absurd a hx2⟩

/-- The test `fabs(d) < 10000.0` on a rounded difference `d = fl x` in terms
of the exact value `x`. -/
theorem abs_fl_lt_iff (x : ℚ) : |fl x| < 10000 ↔ |x| < 10000 - 1 / 2 ^ 40 := by
  rcases lt_trichotomy x 0 with h | h | h
  · have hn : 0 < -x := by linarith
    have h1 := fl_nonneg (-x) hn
    have h2 := fl_pos_lt_iff (-x) hn
    rw [fl_neg] at h1 h2
    rw [abs_of_nonpos (by linarith), abs_of_neg h]
    exact h2
  · rw [h]
    simp [fl]
    norm_num
  · rw [abs_of_nonneg (fl_nonneg x h), abs_of_pos h]
    exact fl_pos_lt_iff x h

/-- Sample values of the rounding.  A `double` is kept; `0.1` goes to the
nearest `double`; `2^53 + 1` and `2^53 + 3`, each midway between two
`double`s, go to the even neighbours `2^53` and `2^53 + 4`; `10000 - 2^-44`
and the midpoint `10000 - 2^-40` go up to `10000`, `10000 - 3 * 2^-41` goes
down to `10000 - 2^-39`; below `2^-1022` the spacing is `2^-1074`. -/
theorem fl_values :
    fl 5000 = 5000 ∧ fl (201 / 4) = 201 / 4 ∧
    fl (1 / 10) = 3602879701896397 / 36028797018963968 ∧
    fl (2 ^ 53 + 1) = 2 ^ 53 ∧ fl (2 ^ 53 + 3) = 2 ^ 53 + 4 ∧
    fl (10000 - 1 / 2 ^ 44) = 10000 ∧ fl (10000 - 1 / 2 ^ 40) = 10000 ∧
    fl (10000 - 3 / 2 ^ 41) = 10000 - 1 / 2 ^ 39 ∧
    fl (1 / 2 ^ 1074) = 1 / 2 ^ 1074 ∧ fl (1 / 2 ^ 1075) = 0 ∧
    fl (3 / 2 ^ 1075) = 2 / 2 ^ 1074 := by
  refine ⟨by decide!, by decide!, by decide!, by decide!, by decide!, by decide!, by decide!,
    by decide!, by decide!, by decide!, by decide!⟩

/-! ## Lemmas on the buffers -/

theorem scaled_length (xi xq : List Int) : (scaled xi xq).length = min xi.length xq.length := by
  simp [scaled]

theorem scaled_take (xi xq : List Int) (n : Nat) :
    (scaled xi xq).take n = scaled (xi.take n) (xq.take n) := by
  simp [scaled, List.take_zipWith]

theorem sampleAt_eq (bi bq : List Int) (n : Nat) (h : n < (scaled bi bq).length) :
    sampleAt bi bq (n : Int) = Except.ok ((scaled bi bq)[n]) := by
  have h' := h
  rw [scaled_length] at h'
  have hi : n < bi.length := lt_of_lt_of_le h' (min_le_left _ _)
  have hq : n < bq.length := lt_of_lt_of_le h' (min_le_right _ _)
  simp [sampleAt, scaled, List.getElem?_eq_getElem hi, List.getElem?_eq_getElem hq]

theorem copyLoop_eq (bi bq : List Int) (k n : Nat) (h : n + k ≤ (scaled bi bq).length) :
    copyLoop bi bq k (n : Int) = Except.ok (((scaled bi bq).drop n).take k) := by
  induction k generalizing n with
  | zero => simp [copyLoop]
  | succ k ih =>
    have hn : n < (scaled bi bq).length := by omega
    have h1 := ih (n + 1) (by omega)
    have hc : ((n : Int) + 1) = ((n + 1 : Nat) : Int) := by push_cast; rfl
    rw [copyLoop, sampleAt_eq bi bq n hn, hc, h1]
    rw [List.drop_eq_getElem_cons hn]
    rfl

/-- Within the storage the copy loop yields the buffered items `lo`, ..., `hi - 1`. -/
theorem copyOut_eq (bi bq : List Int) (lo hi : Int) (h0 : 0 ≤ lo) (hle : lo ≤ hi)
    (hi1 : hi ≤ bi.length) (hi2 : hi ≤ bq.length) :
    copyOut bi bq lo hi = Except.ok (((scaled bi bq).take hi.toNat).drop lo.toNat) := by
  obtain ⟨a, rfl⟩ := Int.eq_ofNat_of_zero_le h0
  obtain ⟨b, rfl⟩ := Int.eq_ofNat_of_zero_le (le_trans h0 hle)
  have hab : a ≤ b := by exact_mod_cast hle
  have hb1 : b ≤ bi.length := by exact_mod_cast hi1
  have hb2 : b ≤ bq.length := by exact_mod_cast hi2
  have hk : ((b : Int) - (a : Int)).toNat = b - a := by omega
  rw [copyOut, hk, copyLoop_eq bi bq (b - a) a (by rw [scaled_length]; omega)]
  simp only [Int.toNat_ofNat]
  rw [List.drop_take]

theorem store_length (xs buf : List Int) : (store xs buf).length = buf.length := by
  simp [store]
  omega

theorem store_take (xs buf : List Int) (h : xs.length ≤ buf.length) :
    (store xs buf).take xs.length = xs := by
  simp [store, List.take_take, h, List.take_append_eq_append_take]

/-- After `P` I and `P` Q samples are stored into buffers of capacity at least
`P`, the first `P` buffered items are the scaled samples. -/
theorem scaled_store (xi xq bi bq : List Int) (P : Nat)
    (hxi : xi.length = P) (hxq : xq.length = P) (hi : P ≤ bi.length) (hq : P ≤ bq.length) :
    (scaled (store xi bi) (store xq bq)).take P = scaled xi xq := by
  rw [scaled_take]
  have h1 := store_take xi bi (by omega)
  have h2 := store_take xq bq (by omega)
  rw [hxi] at h1
  rw [hxq] at h2
  rw [h1, h2]

/-- Copying out of the buffers right after a packet of `P` samples was stored. -/
theorem copyOut_store (xi xq bi bq : List Int) (P : Nat) (lo hi : Int)
    (hxi : xi.length = P) (hxq : xq.length = P) (hi1 : P ≤ bi.length) (hi2 : P ≤ bq.length)
    (h0 : 0 ≤ lo) (hle : lo ≤ hi) (hP : hi ≤ P) :
    copyOut (store xi bi) (store xq bq) lo hi
      = Except.ok (((scaled xi xq).take hi.toNat).drop lo.toNat) := by
  rw [copyOut_eq _ _ lo hi h0 hle (by rw [store_length]; omega) (by rw [store_length]; omega)]
  have hh : hi.toNat ≤ P := by omega
  rw [← scaled_store xi xq bi bq P hxi hxq hi1 hi2, List.take_take, min_eq_left hh]

/-- The full-packet loop does nothing when fewer than a packet is requested. -/
theorem work_loop_exit (d : Driver) (fuel : Nat) (s : sdrplay_source_c) (cnt : Int)
    (h : cnt < s._dev.samplesPerPacket) :
    work_loop d fuel s cnt = Except.ok (s, cnt, []) := by
  have h' : ¬ (0 ≤ cnt - s._dev.samplesPerPacket) := by omega
  cases fuel <;> simp [work_loop, h']

/-- One iteration of the full-packet loop. -/
theorem work_loop_step (d : Driver) (fuel : Nat) (s : sdrplay_source_c) (cnt : Int)
    (xs : List gr_complex)
    (h : s._dev.samplesPerPacket ≤ cnt)
    (hc : copyOut (mir_sdr_ReadPacket d s)._bufi (mir_sdr_ReadPacket d s)._bufq 0
      s._dev.samplesPerPacket = Except.ok xs) :
    work_loop d (fuel + 1) s cnt =
      (work_loop d fuel (mir_sdr_ReadPacket d s) (cnt - s._dev.samplesPerPacket)).map
        (fun r => (r.1, r.2.1, xs ++ r.2.2)) := by
  have h' : 0 ≤ cnt - s._dev.samplesPerPacket := by omega
  have hd : (mir_sdr_ReadPacket d s)._dev = s._dev := rfl
  simp only [work_loop, h', if_true, hd, hc]
  cases work_loop d fuel (mir_sdr_ReadPacket d s) (cnt - s._dev.samplesPerPacket) <;> rfl

/-- A request of exactly one packet from an empty carry-over: one read, the
packet's items, and an empty carry-over again. -/
theorem work_full_packet (d : Driver) (s : sdrplay_source_c) (P : Nat)
    (hu : s._uninit = false) (hr : s._running = true) (ho : s._buf_offset = 0)
    (hP : s._dev.samplesPerPacket = P) (hpos : 1 ≤ P)
    (hi : P ≤ s._bufi.length) (hq : P ≤ s._bufq.length)
    (hxi : (d.pkt s.reads).xi.length = P) (hxq : (d.pkt s.reads).xq.length = P) :
    work d s P = Except.ok
      ⟨{ mir_sdr_ReadPacket d s with _buf_offset := 0 }, packet d s.reads, P⟩ := by
  have hl : (packet d s.reads).length = P := by
    simp [packet, scaled_length, hxi, hxq]
  have hc : copyOut (mir_sdr_ReadPacket d s)._bufi (mir_sdr_ReadPacket d s)._bufq 0
      s._dev.samplesPerPacket = Except.ok (packet d s.reads) := by
    rw [hP]
    show copyOut (store _ _) (store _ _) 0 P = _
    rw [copyOut_store _ _ _ _ P 0 P hxi hxq hi hq le_rfl (by omega) le_rfl]
    simp only [Int.toNat_ofNat, Int.toNat_zero, List.drop_zero]
    show Except.ok (List.take P (packet d s.reads)) = _
    rw [← hl, List.take_length]
  have hloop : work_loop d (P + 1) s P
      = Except.ok (mir_sdr_ReadPacket d s, 0, packet d s.reads) := by
    rw [work_loop_step d _ s P (packet d s.reads) (by omega) hc]
    rw [work_loop_exit d _ _ _ (by show (P : Int) - s._dev.samplesPerPacket < s._dev.samplesPerPacket; omega)]
    simp [Except.map, hP]
  simp [work, hu, hr, ho, hloop, bind, Except.bind, pure, Except.pure]

/-- A request of fewer items than a packet from an empty carry-over: one read,
the first `k` items of the packet, and carry-over offset `k`. -/
theorem work_partial (d : Driver) (s : sdrplay_source_c) (P : Nat) (k : Int)
    (hu : s._uninit = false) (hr : s._running = true) (ho : s._buf_offset = 0)
    (hP : s._dev.samplesPerPacket = P) (hk0 : 0 < k) (hkP : k < P)
    (hi : P ≤ s._bufi.length) (hq : P ≤ s._bufq.length)
    (hxi : (d.pkt s.reads).xi.length = P) (hxq : (d.pkt s.reads).xq.length = P) :
    work d s k = Except.ok
      ⟨{ mir_sdr_ReadPacket d s with _buf_offset := k }, (packet d s.reads).take k.toNat, k⟩ := by
  have hloop : work_loop d (k.toNat + 1) s k = Except.ok (s, k, []) :=
    work_loop_exit d _ s k (by omega)
  have hc : copyOut (store (d.pkt s.reads).xi s._bufi) (store (d.pkt s.reads).xq s._bufq) 0 k
      = Except.ok ((packet d s.reads).take k.toNat) := by
    rw [copyOut_store _ _ _ _ P 0 k hxi hxq hi hq le_rfl (by omega) (by omega)]
    simp [packet]
  have hne : k ≠ 0 := by omega
  simp [work, hu, hr, ho, hloop, bind, Except.bind, pure, Except.pure, hne, hc, mir_sdr_ReadPacket]

/-- A request of exactly the carried-over tail: no read, the tail of the
buffered packet, and an empty carry-over. -/
theorem work_tail (d : Driver) (s : sdrplay_source_c) (P : Nat) (k : Int)
    (hu : s._uninit = false) (hr : s._running = true) (ho : s._buf_offset = k)
    (hP : s._dev.samplesPerPacket = P) (hk0 : 0 < k) (hkP : k < P)
    (hi : P ≤ s._bufi.length) (hq : P ≤ s._bufq.length) :
    work d s (P - k) = Except.ok
      ⟨{ s with _buf_offset := 0 }, ((scaled s._bufi s._bufq).take P).drop k.toNat, P - k⟩ := by
  have hc : copyOut s._bufi s._bufq k P
      = Except.ok (((scaled s._bufi s._bufq).take P).drop k.toNat) := by
    rw [copyOut_eq _ _ k _ (by omega) (by omega) (by omega) (by omega)]
    simp
  have hloop : ∀ fuel, work_loop d fuel s 0 = Except.ok (s, 0, []) :=
    fun fuel => work_loop_exit d fuel s 0 (by omega)
  have hne : k ≠ 0 := by omega
  simp [work, hu, hr, ho, hne, hc, bind, Except.bind, pure, Except.pure, hP, hloop]

/-- On the device record `reinit_device` changes the negotiated packet size only. -/
theorem reinit_device_dev (d : Driver) (s : sdrplay_source_c) :
    (reinit_device d s)._dev =
      { s._dev with samplesPerPacket := (d.spp s.inits).getD s._dev.samplesPerPacket } := by
  simp only [reinit_device, mir_sdr_Init, logCall]
  split_ifs <;> rfl

theorem reinit_device_bwType (d : Driver) (s : sdrplay_source_c) :
    (reinit_device d s)._dev.bwType = s._dev.bwType := by
  rw [reinit_device_dev]

/-- The driver calls `reinit_device` makes: `mir_sdr_Uninit` if running, then
`mir_sdr_Init` with the current parameters, then `mir_sdr_SetDcMode(4, 1)` if
the DC mode is set. -/
theorem reinit_device_calls (d : Driver) (s : sdrplay_source_c) :
    (reinit_device d s).calls = s.calls ++ (if s._running then [DriverCall.Uninit] else []) ++
      [DriverCall.Init s._dev.gRdB (s._dev.fsHz / 1000000) (s._dev.rfHz / 1000000)
        s._dev.bwType s._dev.ifType] ++
      (if s._dev.dcMode ≠ 0 then [DriverCall.SetDcMode 4 1] else []) := by
  simp only [reinit_device, mir_sdr_Init, logCall]
  split_ifs <;> simp

theorem reinit_device_inits (d : Driver) (s : sdrplay_source_c) :
    (reinit_device d s).inits = s.inits + 1 := by
  simp only [reinit_device, mir_sdr_Init, logCall]
  split_ifs <;> rfl

/-- Apart from the two limits `set_gain_limits` leaves the record as it is. -/
theorem set_gain_limits_eq (dev : sdrplay_dev) (f : ℚ) :
    set_gain_limits dev f =
      { dev with minGain := (set_gain_limits dev f).minGain,
                 maxGain := (set_gain_limits dev f).maxGain } := by
  unfold set_gain_limits
  split_ifs <;> rfl

theorem work_loop_withStatus (d : Driver) (st : Nat → Int) (fuel : Nat)
    (s : sdrplay_source_c) (cnt : Int) :
    work_loop (withStatus d st) fuel s cnt = work_loop d fuel s cnt := by
  induction fuel generalizing s cnt with
  | zero => rfl
  | succ fuel ih =>
    have hread : mir_sdr_ReadPacket (withStatus d st) s = mir_sdr_ReadPacket d s := rfl
    simp only [work_loop, hread, ih]

/-- A completed call of `work` on an object that is not torn down returns `noutput_items`. -/
theorem work_ret (d : Driver) (s : sdrplay_source_c) (n : Int) (w : WorkResult)
    (hu : s._uninit = false) (h : work d s n = Except.ok w) : w.ret = n := by
  simp only [work, hu, bind, Except.bind, pure, Except.pure] at h
  repeat' split at h
  all_goals first | (cases h; rfl) | contradiction

theorem sampleAt_fault (bi bq : List Int) (i : Int) (e : Fault)
    (h : sampleAt bi bq i = Except.error e) : e = Fault.outOfBounds := by
  unfold sampleAt at h
  split at h
  · split at h
    · cases h
    · cases h; rfl
  · cases h; rfl

theorem copyLoop_fault (bi bq : List Int) (k : Nat) (i : Int) (e : Fault)
    (h : copyLoop bi bq k i = Except.error e) : e = Fault.outOfBounds := by
  induction k generalizing i with
  | zero => cases h
  | succ k ih =>
    simp only [copyLoop, bind, Except.bind, pure, Except.pure] at h
    cases hs : sampleAt bi bq i with
    | error e1 =>
      rw [hs] at h
      cases h
      exact sampleAt_fault bi bq i _ hs
    | ok x =>
      rw [hs] at h
      cases hc : copyLoop bi bq k (i + 1) with
      | error e2 =>
        rw [hc] at h
        cases h
        exact ih _ hc
      | ok r =>
        rw [hc] at h
        cases h

/-- With a packet size of at least 1 the full-packet loop never runs out of
fuel once the fuel exceeds the count, and more fuel does not change its result. -/
theorem work_loop_fuel (d : Driver) (fuel extra : Nat) (s : sdrplay_source_c) (cnt : Int)
    (hP : 1 ≤ s._dev.samplesPerPacket) (hc : cnt < (fuel : Int)) :
    work_loop d (fuel + extra) s cnt = work_loop d fuel s cnt ∧
    work_loop d fuel s cnt ≠ Except.error Fault.diverges := by
  induction fuel generalizing s cnt with
  | zero =>
    have h : cnt < s._dev.samplesPerPacket := by
      have : cnt < 0 := by exact_mod_cast hc
      omega
    rw [work_loop_exit d _ s cnt h, work_loop_exit d _ s cnt h]
    exact ⟨rfl, by simp⟩
  | succ fuel ih =>
    by_cases h : cnt < s._dev.samplesPerPacket
    · rw [work_loop_exit d _ s cnt h, work_loop_exit d _ s cnt h]
      exact ⟨rfl, by simp⟩
    · have h' : 0 ≤ cnt - s._dev.samplesPerPacket := by omega
      have hd : (mir_sdr_ReadPacket d s)._dev = s._dev := rfl
      have hlt : cnt - s._dev.samplesPerPacket < (fuel : Int) := by
        have : cnt < (fuel : Int) + 1 := by exact_mod_cast hc
        omega
      obtain ⟨h1, h2⟩ := ih (mir_sdr_ReadPacket d s) (cnt - s._dev.samplesPerPacket)
        (by rw [hd]; exact hP) hlt
      have e : fuel + 1 + extra = (fuel + extra) + 1 := by omega
      rw [e]
      simp only [work_loop, h', if_true, hd, h1]
      refine ⟨trivial, ?_⟩
      cases hco : copyOut (mir_sdr_ReadPacket d s)._bufi (mir_sdr_ReadPacket d s)._bufq 0
          s._dev.samplesPerPacket with
      | error e =>
        have he := copyLoop_fault _ _ _ _ _ hco
        subst he
        simp [bind, Except.bind]
      | ok xs =>
        simp only [bind, Except.bind]
        cases hl : work_loop d fuel (mir_sdr_ReadPacket d s) (cnt - s._dev.samplesPerPacket) with
        | error e2 =>
          intro hcon
          apply h2
          rw [hl]
          simpa using hcon
        | ok r => simp [pure, Except.pure]

/-- The full-packet loop leaves the device record as it is. -/
theorem work_loop_dev (d : Driver) (fuel : Nat) (s : sdrplay_source_c) (cnt : Int)
    (r : sdrplay_source_c × Int × List gr_complex)
    (h : work_loop d fuel s cnt = Except.ok r) : r.1._dev = s._dev := by
  induction fuel generalizing s cnt r with
  | zero =>
    simp only [work_loop] at h
    split at h
    · cases h
    · cases h; rfl
  | succ fuel ih =>
    simp only [work_loop, bind, Except.bind, pure, Except.pure] at h
    split at h
    · split at h
      · cases h
      · split at h
        · cases h
        · rename_i v hv
          cases h
          exact ih (mir_sdr_ReadPacket d s) _ v hv
    · cases h; rfl

/-- A completed call of `work` changes at most the negotiated packet size in
the device record, and that only at a lazy start. -/
theorem work_dev (d : Driver) (s : sdrplay_source_c) (n : Int) (w : WorkResult)
    (h : work d s n = Except.ok w) :
    w.state._dev = { s._dev with samplesPerPacket := w.state._dev.samplesPerPacket } ∧
    (s._running = true → w.state._dev = s._dev) := by
  cases hu : s._uninit
  · cases hr : s._running
    · simp only [work, hu, hr, bind, Except.bind, pure, Except.pure] at h
      repeat' split at h
      all_goals first
        | contradiction
        | (cases h
           have hd := work_loop_dev _ _ _ _ _ (by assumption)
           simp [hd, reinit_device_dev, mir_sdr_ReadPacket])
    · simp only [work, hu, hr, bind, Except.bind, pure, Except.pure] at h
      repeat' split at h
      all_goals first
        | contradiction
        | (cases h
           have hd := work_loop_dev _ _ _ _ _ (by assumption)
           simp [hd, mir_sdr_ReadPacket])
  · simp only [work, hu, if_true] at h
    cases h
    simp

theorem gainInBounds_of_dev (s t : sdrplay_source_c)
    (h : t._dev =
      { s._dev with
        samplesPerPacket := t._dev.samplesPerPacket
        fsHz := t._dev.fsHz
        bwType := t._dev.bwType
        dcMode := t._dev.dcMode })
    (hs : gainInBounds s) : gainInBounds t := by
  unfold gainInBounds at *
  rw [h]
  exact hs

/-- Where the gain bounds are kept: by `set_gain` (which restores them whenever
`minGain ≤ maxGain`), and by every operation that touches neither the gain nor
the limits. -/
theorem gainInBounds_kept (d : Driver) (s : sdrplay_source_c) (hs : gainInBounds s) :
    (∀ g, gainInBounds (set_gain s g).1) ∧
    (∀ rate, gainInBounds (set_sample_rate d s rate).1) ∧
    (∀ b, gainInBounds (set_bandwidth d s b).1) ∧
    (∀ mode, gainInBounds (set_dc_offset_mode s mode)) ∧
    (∀ a, gainInBounds (set_gain_mode s a).1) ∧
    gainInBounds (reinit_device d s) ∧
    (∀ n w, work d s n = Except.ok w → gainInBounds w.state) := by
  refine ⟨?_, ?_, ?_, ?_, ?_, ?_, ?_⟩
  · intro g
    have hq : (s._dev.minGain : ℚ) ≤ (s._dev.maxGain : ℚ) := le_trans hs.1 hs.2
    simp only [set_gain, logCall, gainInBounds]
    split_ifs <;> constructor <;> simp_all
  · intro rate
    apply gainInBounds_of_dev s _ _ hs
    simp only [set_sample_rate, logCall]
    split_ifs <;> simp [reinit_device_dev]
  · intro b
    apply gainInBounds_of_dev s _ _ hs
    simp only [set_bandwidth]
    split_ifs <;> simp [reinit_device_dev]
  · intro mode
    apply gainInBounds_of_dev s _ _ hs
    simp only [set_dc_offset_mode, logCall]
    split_ifs <;> simp
  · intro a
    exact hs
  · apply gainInBounds_of_dev s _ _ hs
    simp [reinit_device_dev]
  · intro n w hw
    apply gainInBounds_of_dev s _ _ hs
    have h := (work_dev d s n w hw).1
    rw [h]

theorem reinit_device_buf_offset (d : Driver) (s : sdrplay_source_c) :
    (reinit_device d s)._buf_offset = 0 := rfl

theorem set_gain_limits_samplesPerPacket (dev : sdrplay_dev) (f : ℚ) :
    (set_gain_limits dev f).samplesPerPacket = dev.samplesPerPacket := by
  rw [set_gain_limits_eq]

theorem quietStep_refl (s : sdrplay_source_c) : quietStep s s :=
  ⟨rfl, rfl, rfl, [], by simp, by simp⟩

theorem quietStep_logCall (s t : sdrplay_source_c) (c : DriverCall)
    (h : isInitOrUninit c = false) (hs : streamState t = streamState s)
    (hi : t.inits = s.inits) (hr : t.reads = s.reads) (hc : t.calls = s.calls) :
    quietStep s (logCall t c) :=
  ⟨hs, hi, hr, [c], by simp [logCall, hc], by simp [h]⟩

theorem set_gain_limits_rfHz (dev : sdrplay_dev) (x f : ℚ) :
    (set_gain_limits { dev with rfHz := x } f).maxGain = (set_gain_limits dev f).maxGain ∧
    (set_gain_limits { dev with rfHz := x } f).minGain = (set_gain_limits dev f).minGain := by
  unfold set_gain_limits
  split_ifs <;> exact ⟨rfl, rfl⟩

theorem truncToInt_intCast (k : Int) : truncToInt (k : ℚ) = k := by
  unfold truncToInt
  split_ifs <;> simp

/-- The operations other than `set_gain` leave `gRdB` and `gain_dB` as they
are, and `maxGain` too, `set_center_freq` doing so when the limits of the new
frequency have the old `maxGain`. -/
theorem gain_fields_kept (d : Driver) (s : sdrplay_source_c) :
    (∀ rate, (set_sample_rate d s rate).1._dev.gRdB = s._dev.gRdB ∧
      (set_sample_rate d s rate).1._dev.maxGain = s._dev.maxGain ∧
      (set_sample_rate d s rate).1._dev.gain_dB = s._dev.gain_dB) ∧
    (∀ b, (set_bandwidth d s b).1._dev.gRdB = s._dev.gRdB ∧
      (set_bandwidth d s b).1._dev.maxGain = s._dev.maxGain ∧
      (set_bandwidth d s b).1._dev.gain_dB = s._dev.gain_dB) ∧
    (∀ mode, (set_dc_offset_mode s mode)._dev.gRdB = s._dev.gRdB ∧
      (set_dc_offset_mode s mode)._dev.maxGain = s._dev.maxGain ∧
      (set_dc_offset_mode s mode)._dev.gain_dB = s._dev.gain_dB) ∧
    (∀ a, (set_gain_mode s a).1._dev.gRdB = s._dev.gRdB ∧
      (set_gain_mode s a).1._dev.maxGain = s._dev.maxGain ∧
      (set_gain_mode s a).1._dev.gain_dB = s._dev.gain_dB) ∧
    ((reinit_device d s)._dev.gRdB = s._dev.gRdB ∧
      (reinit_device d s)._dev.maxGain = s._dev.maxGain ∧
      (reinit_device d s)._dev.gain_dB = s._dev.gain_dB) ∧
    (∀ n w, work d s n = Except.ok w → w.state._dev.gRdB = s._dev.gRdB ∧
      w.state._dev.maxGain = s._dev.maxGain ∧ w.state._dev.gain_dB = s._dev.gain_dB) ∧
    (∀ f, (set_gain_limits s._dev f).maxGain = s._dev.maxGain →
      (set_center_freq d s f).1._dev.gRdB = s._dev.gRdB ∧
      (set_center_freq d s f).1._dev.maxGain = s._dev.maxGain ∧
      (set_center_freq d s f).1._dev.gain_dB = s._dev.gain_dB) := by
  refine ⟨?_, ?_, ?_, ?_, ?_, ?_, ?_⟩
  · intro rate
    simp only [set_sample_rate, logCall]
    split_ifs <;> simp [reinit_device_dev]
  · intro b
    simp only [set_bandwidth]
    cases s._running <;> simp [reinit_device_dev]
  · intro mode
    simp only [set_dc_offset_mode, logCall]
    split_ifs <;> simp
  · intro a
    exact ⟨rfl, rfl, rfl⟩
  · simp [reinit_device_dev]
  · intro n w hw
    have h := (work_dev d s n w hw).1
    rw [h]
    exact ⟨rfl, rfl, rfl⟩
  · intro f hf
    simp only [set_center_freq, logCall]
    split_ifs <;> simp only [reinit_device_dev] <;> rw [set_gain_limits_eq] <;>
      refine ⟨rfl, ?_, rfl⟩ <;> exact ((set_gain_limits_rfHz s._dev f f).1).trans hf

/-- The device record the constructor leaves: limits (5, 107), `gRdB = 60`, gain 47. -/
theorem make_sdrplay_source_c_gain (memi memq : Nat → Int) (lim0 : Int × Int) :
    (make_sdrplay_source_c memi memq lim0)._dev.gRdB = 60 ∧
    (make_sdrplay_source_c memi memq lim0)._dev.minGain = 5 ∧
    (make_sdrplay_source_c memi memq lim0)._dev.maxGain = 107 ∧
    (make_sdrplay_source_c memi memq lim0)._dev.gain_dB = 47 ∧
    (make_sdrplay_source_c memi memq lim0)._dev.samplesPerPacket = 0 ∧
    (make_sdrplay_source_c memi memq lim0)._buf_offset = 0 := by
  have a1 : ¬ ((200000000 : ℚ) ≤ 30000000) := by norm_num
  have a2 : ¬ ((200000000 : ℚ) ≤ 108000000) := by norm_num
  have a3 : (200000000 : ℚ) ≤ 240000000 := by norm_num
  have hd : set_gain_limits
      { gRdB := 60, gain_dB := 0, fsHz := 2048000, rfHz := 200000000,
        bwType := mir_sdr_BW_1_536, ifType := mir_sdr_IF_Zero,
        samplesPerPacket := 0, maxGain := lim0.2, minGain := lim0.1, dcMode := 0 } 200000000
      = { gRdB := 60, gain_dB := 0, fsHz := 2048000, rfHz := 200000000,
          bwType := mir_sdr_BW_1_536, ifType := mir_sdr_IF_Zero,
          samplesPerPacket := 0, maxGain := 107, minGain := 5, dcMode := 0 } := by
    simp only [set_gain_limits, SDRPLAY_AM_MAX, SDRPLAY_FM_MAX, SDRPLAY_B3_MAX, a1, a2, a3,
      if_true, if_false]
  simp only [make_sdrplay_source_c, hd]
  norm_num

/-! ## The stream of samples -/

/-- On a running session `work` is the carry-over branch followed by `work_rest`. -/
theorem work_eq_rest (d : Driver) (s : sdrplay_source_c) (n : Int)
    (hu : s._uninit = false) (hr : s._running = true) :
    work d s n =
      if s._buf_offset ≠ 0 then
        (copyOut s._bufi s._bufq s._buf_offset s._dev.samplesPerPacket).bind fun xs =>
          work_rest d s n (xs, n - (s._dev.samplesPerPacket - s._buf_offset))
      else work_rest d s n ([], n) := by
  simp only [work, work_rest, hu, hr, Bool.false_eq_true, if_false, Bool.not_true]
  split_ifs with h
  · cases copyOut s._bufi s._bufq s._buf_offset s._dev.samplesPerPacket <;> rfl
  · rfl

/-- A packet of `P` samples is a run of `P` consecutive items of the stream. -/
theorem packet_eq_stream (d : Driver) (P k : Nat)
    (hxi : (d.pkt k).xi.length = P) (hxq : (d.pkt k).xq.length = P) :
    packet d k = (List.range' (k * P) P).map (streamAt d P) := by
  apply List.ext_getElem
  · simp [packet, scaled_length, hxi, hxq]
  · intro j h1 h2
    have hj : j < P := by simpa using h2
    have hpos : 0 < P := by omega
    have e1 : (k * P + j) / P = k := by
      rw [Nat.mul_comm, Nat.mul_add_div hpos, Nat.div_eq_of_lt hj, Nat.add_zero]
    have e2 : (k * P + j) % P = j := by
      rw [Nat.mul_comm, Nat.mul_add_mod, Nat.mod_eq_of_lt hj]
    simp only [packet, scaled, List.getElem_zipWith, List.getElem_map, List.getElem_range',
      Nat.one_mul, streamAt, e1, e2]
    rw [List.getD_eq_getElem _ _ (by omega), List.getD_eq_getElem _ _ (by omega)]

theorem map_range'_append (f : Nat → gr_complex) (a m n : Nat) :
    (List.range' a m).map f ++ (List.range' (a + m) n).map f = (List.range' a (m + n)).map f := by
  rw [← List.map_append, List.range'_append_1, Nat.add_comm]

theorem map_range'_drop (f : Nat → gr_complex) (a m k : Nat) (h : k ≤ m) :
    ((List.range' a m).map f).drop k = (List.range' (a + k) (m - k)).map f := by
  obtain ⟨j, rfl⟩ : ∃ j, m = k + j := ⟨m - k, by omega⟩
  rw [← map_range'_append f a k j, List.drop_left' (by simp), Nat.add_sub_cancel_left]

theorem map_range'_take (f : Nat → gr_complex) (a m k : Nat) (h : k ≤ m) :
    ((List.range' a m).map f).take k = (List.range' a k).map f := by
  obtain ⟨j, rfl⟩ : ∃ j, m = k + j := ⟨m - k, by omega⟩
  rw [← map_range'_append f a k j, List.take_left' (by simp)]

/-- The full-packet loop on a count `c ≥ 0`: it reads `c / P` packets, puts
out their items, as many consecutive items of the stream, and leaves the
count `c mod P`. -/
theorem work_loop_stream (d : Driver) (P : Nat) (hpos : 1 ≤ P)
    (hpk : ∀ k, (d.pkt k).xi.length = P ∧ (d.pkt k).xq.length = P)
    (fuel : Nat) (s : sdrplay_source_c) (c : Nat)
    (hP : s._dev.samplesPerPacket = (P : Int))
    (hi : P ≤ s._bufi.length) (hq : P ≤ s._bufq.length) (hf : c < fuel) :
    ∃ s', work_loop d fuel s (c : Int)
        = Except.ok (s', ((c % P : Nat) : Int),
            (List.range' (s.reads * P) (c / P * P)).map (streamAt d P)) ∧
      s'._dev = s._dev ∧ s'._running = s._running ∧ s'._uninit = s._uninit ∧
      s'._bufi.length = s._bufi.length ∧ s'._bufq.length = s._bufq.length ∧
      s'.reads = s.reads + c / P ∧ s'.inits = s.inits := by
  induction fuel generalizing s c with
  | zero => omega
  | succ f ih =>
    by_cases h : c < P
    · refine ⟨s, ?_, rfl, rfl, rfl, rfl, rfl, ?_, rfl⟩
      · rw [work_loop_exit d _ s _ (by rw [hP]; exact_mod_cast h)]
        simp [Nat.mod_eq_of_lt h, Nat.div_eq_of_lt h]
      · simp [Nat.div_eq_of_lt h]
    · obtain ⟨x, rfl⟩ : ∃ x, c = x + P := ⟨c - P, by omega⟩
      have hc : copyOut (mir_sdr_ReadPacket d s)._bufi (mir_sdr_ReadPacket d s)._bufq 0
          s._dev.samplesPerPacket = Except.ok (packet d s.reads) := by
        rw [hP]
        show copyOut (store _ _) (store _ _) 0 P = _
        rw [copyOut_store _ _ _ _ P 0 P (hpk _).1 (hpk _).2 hi hq le_rfl (by omega) le_rfl]
        have hl : (packet d s.reads).length = P := by
          simp [packet, scaled_length, (hpk s.reads).1, (hpk s.reads).2]
        simp only [Int.toNat_ofNat, Int.toNat_zero, List.drop_zero]
        show Except.ok (List.take P (packet d s.reads)) = _
        rw [← hl, List.take_length]
      have hcast : ((x + P : Nat) : Int) - s._dev.samplesPerPacket = (x : Int) := by
        rw [hP]
        push_cast
        ring
      obtain ⟨s', hs', h1, h2, h3, h4, h5, h6, h7⟩ :=
        ih (mir_sdr_ReadPacket d s) x hP
          (by show P ≤ (store _ _).length; rw [store_length]; exact hi)
          (by show P ≤ (store _ _).length; rw [store_length]; exact hq) (by omega)
      refine ⟨s', ?_, h1, h2, h3, ?_, ?_, ?_, h7⟩
      · rw [work_loop_step d f s _ (packet d s.reads) (by rw [hP]; push_cast; omega) hc,
          hcast, hs']
        have e1 : (x + P) % P = x % P := Nat.add_mod_right x P
        have e2 : (x + P) / P = x / P + 1 := Nat.add_div_right x (by omega)
        have e3 : (mir_sdr_ReadPacket d s).reads * P = s.reads * P + P := by
          show (s.reads + 1) * P = _
          ring
        simp only [Except.map, e1, e2, e3]
        rw [packet_eq_stream d P _ (hpk _).1 (hpk _).2, map_range'_append]
        have e4 : P + x / P * P = (x / P + 1) * P := by ring
        rw [e4]
      · rw [h4]
        exact store_length _ _
      · rw [h5]
        exact store_length _ _
      · rw [h6]
        have e2 : (x + P) / P = x / P + 1 := Nat.add_div_right x (by omega)
        show s.reads + 1 + x / P = _
        omega

/-- The loop and the final partial packet on a count `c ≥ 0`: `c` consecutive
items of the stream are put out, starting with the first item of the next
packet to be read, and the carry-over offset is left at `c mod P`. -/
theorem work_rest_stream (d : Driver) (P : Nat) (hpos : 1 ≤ P)
    (hpk : ∀ k, (d.pkt k).xi.length = P ∧ (d.pkt k).xq.length = P)
    (s : sdrplay_source_c) (n : Int) (c : Nat) (H : List gr_complex)
    (hP : s._dev.samplesPerPacket = (P : Int))
    (hi : P ≤ s._bufi.length) (hq : P ≤ s._bufq.length) :
    ∃ w, work_rest d s n (H, (c : Int)) = Except.ok w ∧ w.ret = n ∧
      w.out = H ++ (List.range' (s.reads * P) c).map (streamAt d P) ∧
      w.state._dev = s._dev ∧ w.state._running = s._running ∧
      w.state._uninit = s._uninit ∧
      w.state._bufi.length = s._bufi.length ∧ w.state._bufq.length = s._bufq.length ∧
      w.state._buf_offset = ((c % P : Nat) : Int) ∧
      streamPos P w.state = s.reads * P + c ∧ w.state.inits = s.inits ∧
      s.reads ≤ w.state.reads ∧
      (c % P ≠ 0 → 1 ≤ w.state.reads ∧
        (scaled w.state._bufi w.state._bufq).take P = packet d (w.state.reads - 1)) := by
  obtain ⟨s', hs', h1, h2, h3, h4, h5, h6, h7⟩ :=
    work_loop_stream d P hpos hpk (c + 1) s c hP hi hq (by omega)
  have hdm : c / P * P + c % P = c := Nat.div_add_mod' c P
  by_cases hr : c % P = 0
  · refine ⟨⟨{ s' with _buf_offset := 0 },
      H ++ (List.range' (s.reads * P) (c / P * P)).map (streamAt d P), n⟩, ?_, rfl, ?_,
      h1, h2, h3, h4, h5, ?_, ?_, h7, ?_, ?_⟩
    · simp only [work_rest, Int.toNat_ofNat, hs', bind, Except.bind, hr]
      simp [pure, Except.pure]
    · have e : c / P * P = c := by omega
      rw [e]
    · simp [hr]
    · show streamPos P { s' with _buf_offset := 0 } = _
      simp only [streamPos, if_true]
      show s'.reads * P = _
      rw [h6, Nat.add_mul]
      omega
    · show s.reads ≤ s'.reads
      rw [h6]
      exact Nat.le_add_right _ _
    · intro hne
      exact absurd hr hne
  · have hrP : c % P < P := Nat.mod_lt c (by omega)
    have hc : copyOut (store (d.pkt s'.reads).xi s'._bufi) (store (d.pkt s'.reads).xq s'._bufq)
        0 ((c % P : Nat) : Int)
        = Except.ok ((List.range' (s'.reads * P) (c % P)).map (streamAt d P)) := by
      rw [copyOut_store _ _ _ _ P 0 _ (hpk _).1 (hpk _).2 (by omega) (by omega) le_rfl
        (by omega) (by exact_mod_cast hrP.le)]
      simp only [Int.toNat_ofNat, Int.toNat_zero, List.drop_zero]
      show Except.ok (List.take (c % P) (packet d s'.reads)) = _
      rw [packet_eq_stream d P _ (hpk _).1 (hpk _).2, map_range'_take _ _ _ _ hrP.le]
    refine ⟨⟨{ mir_sdr_ReadPacket d { s' with _buf_offset := 0 } with
        _buf_offset := ((c % P : Nat) : Int) },
      H ++ (List.range' (s.reads * P) (c / P * P)).map (streamAt d P)
        ++ (List.range' (s'.reads * P) (c % P)).map (streamAt d P), n⟩, ?_, rfl, ?_,
      h1, h2, h3, ?_, ?_, rfl, ?_, h7, ?_, ?_⟩
    · have hne : ((c % P : Nat) : Int) ≠ 0 := by exact_mod_cast hr
      simp only [work_rest, Int.toNat_ofNat, hs', bind, Except.bind, hne, ne_eq,
        not_false_eq_true, if_true]
      have hc2 : copyOut (mir_sdr_ReadPacket d { s' with _buf_offset := 0 })._bufi
          (mir_sdr_ReadPacket d { s' with _buf_offset := 0 })._bufq 0 ((c % P : Nat) : Int)
          = Except.ok ((List.range' (s'.reads * P) (c % P)).map (streamAt d P)) := hc
      rw [hc2]
      rfl
    · rw [List.append_assoc, h6]
      have e : (s.reads + c / P) * P = s.reads * P + c / P * P := Nat.add_mul _ _ _
      rw [e, map_range'_append, hdm]
    · show (store _ _).length = _
      rw [store_length]
      exact h4
    · show (store _ _).length = _
      rw [store_length]
      exact h5
    · have hne : ((c % P : Nat) : Int) ≠ 0 := by exact_mod_cast hr
      simp only [streamPos, hne, if_false]
      show (s'.reads + 1 - 1) * P + ((c % P : Nat) : Int).toNat = _
      rw [Int.toNat_ofNat, Nat.add_sub_cancel, h6, Nat.add_mul]
      omega
    · show s.reads ≤ s'.reads + 1
      rw [h6]
      exact Nat.le_succ_of_le (Nat.le_add_right _ _)
    · intro _
      refine ⟨by show 1 ≤ s'.reads + 1; omega, ?_⟩
      show (scaled (store _ _) (store _ _)).take P = packet d (s'.reads + 1 - 1)
      rw [Nat.add_sub_cancel]
      exact scaled_store _ _ _ _ P (hpk _).1 (hpk _).2
        (by show P ≤ s'._bufi.length; rw [h4]; exact hi)
        (by show P ≤ s'._bufq.length; rw [h5]; exact hq)

/-- One call of `work` on a session in order, with a request that is at least
as long as the carried-over tail: the call succeeds, returns `n`, writes the
next `n` items of the stream, and leaves the session in order with carry-over
offset `(offset + n) mod P`. -/
theorem work_step (d : Driver) (P : Nat)
    (hpk : ∀ k, (d.pkt k).xi.length = P ∧ (d.pkt k).xq.length = P)
    (s : sdrplay_source_c) (n : Int) (hinv : StreamInv d P s) (hn : 0 ≤ n)
    (hadm : s._buf_offset ≠ 0 → (P : Int) - s._buf_offset ≤ n) :
    ∃ w, work d s n = Except.ok w ∧ w.ret = n ∧
      w.out = (List.range' (streamPos P s) n.toNat).map (streamAt d P) ∧
      StreamInv d P w.state ∧ streamPos P w.state = streamPos P s + n.toNat ∧
      w.state._buf_offset = (s._buf_offset + n) % (P : Int) ∧
      w.state.inits = s.inits ∧ s.reads ≤ w.state.reads := by
  obtain ⟨hu, hr, hP, hpos, hi, hq, ho0, hoP, hbuf⟩ := hinv
  rw [work_eq_rest d s n hu hr]
  have hmodlt : ∀ c : Nat, ((c % P : Nat) : Int) < (P : Int) := by
    intro c
    exact_mod_cast Nat.mod_lt c (by omega)
  by_cases ho : s._buf_offset = 0
  · obtain ⟨c, rfl⟩ := Int.eq_ofNat_of_zero_le hn
    obtain ⟨w, hw, h1, h2, h3, h4, h5, h6, h7, h8, h9, h10, h11, h12⟩ :=
      work_rest_stream d P hpos hpk s c c [] hP hi hq
    refine ⟨w, ?_, h1, ?_, ⟨by rw [h5]; exact hu, by rw [h4]; exact hr, by rw [h3]; exact hP,
      hpos, by rw [h6]; exact hi, by rw [h7]; exact hq, by rw [h8]; exact Int.natCast_nonneg _,
      by rw [h8]; exact hmodlt c, ?_⟩, ?_, ?_, h10, h11⟩
    · simp only [ho, ne_eq, not_true_eq_false, if_false]
      exact hw
    · rw [h2]
      simp [streamPos, ho]
    · intro hne
      apply h12
      intro hz
      apply hne
      rw [h8, hz]
      rfl
    · rw [h9]
      simp [streamPos, ho]
    · rw [h8, ho]
      push_cast
      simp
  · obtain ⟨o, ho'⟩ := Int.eq_ofNat_of_zero_le ho0
    have hoP' : o < P := by
      rw [ho'] at hoP
      exact_mod_cast hoP
    have ho1 : 1 ≤ o := by
      rcases Nat.eq_zero_or_pos o with h | h
      · exact absurd (by rw [ho', h]; rfl) ho
      · exact h
    have hge := hadm ho
    rw [ho'] at hge
    obtain ⟨c, hc⟩ := Int.eq_ofNat_of_zero_le (show 0 ≤ n - ((P : Int) - (o : Int)) by omega)
    obtain ⟨hreads, hpkt⟩ := hbuf ho
    have hhead : copyOut s._bufi s._bufq s._buf_offset s._dev.samplesPerPacket
        = Except.ok ((List.range' ((s.reads - 1) * P + o) (P - o)).map (streamAt d P)) := by
      rw [hP, ho', copyOut_eq _ _ _ _ (Int.natCast_nonneg _) (by exact_mod_cast hoP'.le)
        (by exact_mod_cast hi) (by exact_mod_cast hq)]
      simp only [Int.toNat_ofNat]
      rw [hpkt, packet_eq_stream d P _ (hpk _).1 (hpk _).2, map_range'_drop _ _ _ _ hoP'.le]
    obtain ⟨w, hw, h1, h2, h3, h4, h5, h6, h7, h8, h9, h10, h11, h12⟩ :=
      work_rest_stream d P hpos hpk s n c
        ((List.range' ((s.reads - 1) * P + o) (P - o)).map (streamAt d P)) hP hi hq
    have hnat : n.toNat = (P - o) + c := by omega
    have hposs : streamPos P s = (s.reads - 1) * P + o := by
      unfold streamPos
      rw [if_neg ho, ho', Int.toNat_ofNat]
    have hfull : (s.reads - 1) * P + o + (P - o) = s.reads * P := by
      have e : s.reads = (s.reads - 1) + 1 := by omega
      calc (s.reads - 1) * P + o + (P - o) = (s.reads - 1) * P + P := by omega
        _ = ((s.reads - 1) + 1) * P := by ring
        _ = s.reads * P := by rw [← e]
    refine ⟨w, ?_, h1, ?_, ⟨by rw [h5]; exact hu, by rw [h4]; exact hr, by rw [h3]; exact hP,
      hpos, by rw [h6]; exact hi, by rw [h7]; exact hq, by rw [h8]; exact Int.natCast_nonneg _,
      by rw [h8]; exact hmodlt c, ?_⟩, ?_, ?_, h10, h11⟩
    · simp only [ho, ne_eq, not_false_eq_true, if_true, hhead]
      show work_rest d s n (_, n - (s._dev.samplesPerPacket - s._buf_offset)) = _
      rw [hP, ho', hc]
      exact hw
    · rw [h2, hposs, hnat, ← map_range'_append, hfull]
    · intro hne
      apply h12
      intro hz
      apply hne
      rw [h8, hz]
      rfl
    · rw [h9, hposs, hnat]
      omega
    · rw [h8, ho']
      have e : (o : Int) + n = (c : Int) + (P : Int) := by omega
      rw [e, Int.add_emod_self]
      push_cast
      rfl

theorem packetsFrom_eq_stream (d : Driver) (P r m : Nat)
    (hpk : ∀ k, (d.pkt k).xi.length = P ∧ (d.pkt k).xq.length = P) :
    packetsFrom d r m = (List.range' (r * P) (m * P)).map (streamAt d P) := by
  induction m with
  | zero => simp [packetsFrom]
  | succ m ih =>
    have e : packetsFrom d r (m + 1) = packetsFrom d r m ++ packet d (r + m) := by
      simp [packetsFrom, List.range_succ]
    have e2 : (m + 1) * P = m * P + P := by ring
    have e3 : (r + m) * P = r * P + m * P := by ring
    rw [e, ih, packet_eq_stream d P _ (hpk _).1 (hpk _).2, e3, map_range'_append, e2]

theorem streamPos_le (d : Driver) (P : Nat) (s : sdrplay_source_c) (h : StreamInv d P s) :
    streamPos P s ≤ s.reads * P := by
  obtain ⟨_, _, _, hpos, _, _, ho0, hoP, hbuf⟩ := h
  unfold streamPos
  split_ifs with ho
  · exact le_rfl
  · obtain ⟨hreads, _⟩ := hbuf ho
    have e : s.reads * P = (s.reads - 1) * P + P := by
      have e1 : s.reads = (s.reads - 1) + 1 := by omega
      calc s.reads * P = ((s.reads - 1) + 1) * P := by rw [← e1]
        _ = (s.reads - 1) * P + P := by ring
    rw [e]
    omega

theorem admissible_of_ge (P : Nat) (hpos : 1 ≤ P) (ns : List Int)
    (h : ∀ n ∈ ns, (P : Int) ≤ n) (o : Int) (ho : 0 ≤ o) : admissible P o ns := by
  induction ns generalizing o with
  | nil => trivial
  | cons n ns ih =>
    have hn : (P : Int) ≤ n := h n (List.mem_cons_self _ _)
    refine ⟨by omega, fun _ => by omega, ?_⟩
    exact ih (fun m hm => h m (List.mem_cons_of_mem _ hm)) _
      (Int.emod_nonneg _ (by omega))

theorem admissible_take (P : Nat) (ns : List Int) (o : Int) (k : Nat)
    (h : admissible P o ns) : admissible P o (ns.take k) := by
  induction ns generalizing o k with
  | nil => simpa using h
  | cons n ns ih =>
    cases k with
    | zero => trivial
    | succ k => exact ⟨h.1, h.2.1, ih _ k h.2.2⟩

/-- A run of `work` calls on a session in order, each request at least as long
as the carried-over tail it meets: every call succeeds and writes as many
items as requested, and together they write the next items of the stream. -/
theorem workSeq_stream (d : Driver) (P : Nat)
    (hpk : ∀ k, (d.pkt k).xi.length = P ∧ (d.pkt k).xq.length = P)
    (ns : List Int) (s : sdrplay_source_c) (hinv : StreamInv d P s)
    (hadm : admissible P s._buf_offset ns) :
    ∃ s' outs, workSeq d s ns = Except.ok (s', outs) ∧
      outs.map (fun o => (o.length : Int)) = ns ∧
      outs.flatten = (List.range' (streamPos P s) ns.sum.toNat).map (streamAt d P) ∧
      StreamInv d P s' ∧ streamPos P s' = streamPos P s + ns.sum.toNat ∧ 0 ≤ ns.sum ∧
      s'._buf_offset = (s._buf_offset + ns.sum) % (P : Int) ∧
      s'.inits = s.inits ∧ s.reads ≤ s'.reads := by
  induction ns generalizing s with
  | nil =>
    refine ⟨s, [], rfl, rfl, by simp, hinv, by simp, by simp, ?_, rfl, le_rfl⟩
    obtain ⟨_, _, _, _, _, _, ho0, hoP, _⟩ := hinv
    simp only [List.sum_nil, add_zero]
    exact (Int.emod_eq_of_lt ho0 hoP).symm
  | cons n ns ih =>
    obtain ⟨hn, hge, hrest⟩ := hadm
    obtain ⟨w, hw, h1, h2, h3, h4, h5, h6, h7⟩ := work_step d P hpk s n hinv hn.le hge
    rw [← h5] at hrest
    obtain ⟨s', outs, hs', g1, g2, g3, g4, g5, g6, g7, g8⟩ := ih w.state h3 hrest
    have hsum : (n + ns.sum).toNat = n.toNat + ns.sum.toNat := by omega
    refine ⟨s', w.out :: outs, ?_, ?_, ?_, g3, ?_, ?_, ?_, by rw [g7, h6], le_trans h7 g8⟩
    · simp only [workSeq, hw, hs', bind, Except.bind, pure, Except.pure]
    · simp only [List.map_cons, g1, h2, List.length_map, List.length_range']
      rw [Int.toNat_of_nonneg hn.le]
    · simp only [List.flatten_cons, List.sum_cons, g2, h2, h4, hsum]
      rw [map_range'_append]
    · simp only [List.sum_cons, hsum]
      rw [g4, h4]
      omega
    · simp only [List.sum_cons]
      omega
    · simp only [List.sum_cons]
      rw [g6, h5, Int.emod_add_emod, add_assoc]

theorem reinit_device_uninit (d : Driver) (s : sdrplay_source_c) :
    (reinit_device d s)._uninit = s._uninit := by
  simp only [reinit_device, mir_sdr_Init, logCall]
  split_ifs <;> rfl

theorem reinit_device_reads (d : Driver) (s : sdrplay_source_c) :
    (reinit_device d s).reads = s.reads := by
  simp only [reinit_device, mir_sdr_Init, logCall]
  split_ifs <;> rfl

/-- On a session that is not running and not torn down, `work` is `work` on
the session as `reinit_device` leaves it, marked running. -/
theorem work_lazy_start (d : Driver) (s : sdrplay_source_c) (n : Int)
    (hu : s._uninit = false) (hr : s._running = false) :
    work d s n = work d { reinit_device d s with _running := true } n := by
  have hu' : (reinit_device d s)._uninit = false := by rw [reinit_device_uninit, hu]
  simp only [work, hu, hr, hu', Bool.false_eq_true, if_false, Bool.not_false, Bool.not_true,
    if_true]

/-- The driver calls of the full-packet loop: one `mir_sdr_ReadPacket` per
packet read, nothing else. -/
theorem work_loop_calls (d : Driver) (fuel : Nat) (s : sdrplay_source_c) (cnt : Int)
    (r : sdrplay_source_c × Int × List gr_complex)
    (h : work_loop d fuel s cnt = Except.ok r) :
    r.1.inits = s.inits ∧ s.reads ≤ r.1.reads ∧
    r.1.calls = s.calls ++ List.replicate (r.1.reads - s.reads) DriverCall.ReadPacket := by
  induction fuel generalizing s cnt r with
  | zero =>
    simp only [work_loop] at h
    split at h
    · cases h
    · cases h
      simp
  | succ fuel ih =>
    simp only [work_loop, bind, Except.bind, pure, Except.pure] at h
    split at h
    · split at h
      · cases h
      · split at h
        · cases h
        · rename_i v hv
          cases h
          obtain ⟨h1, h2, h3⟩ := ih (mir_sdr_ReadPacket d s) _ v hv
          have h2' : s.reads + 1 ≤ v.1.reads := h2
          have h3' : v.1.calls = (s.calls ++ [DriverCall.ReadPacket])
              ++ List.replicate (v.1.reads - (s.reads + 1)) DriverCall.ReadPacket := h3
          refine ⟨h1, ?_, ?_⟩
          · show s.reads ≤ v.1.reads
            omega
          · show v.1.calls = s.calls ++ List.replicate (v.1.reads - s.reads) DriverCall.ReadPacket
            have e : v.1.reads - s.reads = (v.1.reads - (s.reads + 1)) + 1 := by omega
            rw [h3', e, List.replicate_succ, List.append_assoc]
            rfl
    · cases h
      simp

theorem work_loop_running (d : Driver) (fuel : Nat) (s : sdrplay_source_c) (cnt : Int)
    (r : sdrplay_source_c × Int × List gr_complex)
    (h : work_loop d fuel s cnt = Except.ok r) : r.1._running = s._running := by
  induction fuel generalizing s cnt r with
  | zero =>
    simp only [work_loop] at h
    split at h
    · cases h
    · cases h; rfl
  | succ fuel ih =>
    simp only [work_loop, bind, Except.bind, pure, Except.pure] at h
    split at h
    · split at h
      · cases h
      · split at h
        · cases h
        · rename_i v hv
          cases h
          exact ih (mir_sdr_ReadPacket d s) _ v hv
    · cases h; rfl

/-- The driver calls of the loop and the final partial packet: one
`mir_sdr_ReadPacket` per packet read, nothing else. -/
theorem work_rest_calls (d : Driver) (s : sdrplay_source_c) (n : Int)
    (head : List gr_complex × Int) (w : WorkResult)
    (h : work_rest d s n head = Except.ok w) :
    w.state.inits = s.inits ∧ s.reads ≤ w.state.reads ∧ w.state._running = s._running ∧
    w.state.calls = s.calls ++ List.replicate (w.state.reads - s.reads) DriverCall.ReadPacket := by
  simp only [work_rest, bind, Except.bind, pure, Except.pure] at h
  split at h
  · cases h
  · rename_i v hv
    obtain ⟨h1, h2, h3⟩ := work_loop_calls d _ s _ v hv
    have h4 := work_loop_running d _ s _ v hv
    split at h
    · split at h
      · cases h
      · cases h
        refine ⟨h1, ?_, h4, ?_⟩
        · show s.reads ≤ v.1.reads + 1
          omega
        · show v.1.calls ++ [DriverCall.ReadPacket]
            = s.calls ++ List.replicate (v.1.reads + 1 - s.reads) DriverCall.ReadPacket
          have e : v.1.reads + 1 - s.reads = (v.1.reads - s.reads) + 1 := by omega
          rw [h3, e, List.replicate_succ', List.append_assoc]
    · cases h
      exact ⟨h1, h2, h4, h3⟩

/-- The driver calls of a completed `work` on a running session: one
`mir_sdr_ReadPacket` per packet read, no `mir_sdr_Init`, nothing else. -/
theorem work_running_calls (d : Driver) (s : sdrplay_source_c) (n : Int) (w : WorkResult)
    (hr : s._running = true) (h : work d s n = Except.ok w) :
    w.state.inits = s.inits ∧ s.reads ≤ w.state.reads ∧ w.state._running = true ∧
    w.state.calls = s.calls ++ List.replicate (w.state.reads - s.reads) DriverCall.ReadPacket := by
  cases hu : s._uninit
  · rw [work_eq_rest d s n hu hr] at h
    have key : ∀ head, work_rest d s n head = Except.ok w →
        w.state.inits = s.inits ∧ s.reads ≤ w.state.reads ∧ w.state._running = true ∧
        w.state.calls
          = s.calls ++ List.replicate (w.state.reads - s.reads) DriverCall.ReadPacket := by
      intro head hh
      obtain ⟨h1, h2, h3, h4⟩ := work_rest_calls d s n head w hh
      exact ⟨h1, h2, by rw [h3, hr], h4⟩
    split at h
    · cases hc : copyOut s._bufi s._bufq s._buf_offset s._dev.samplesPerPacket with
      | error e =>
        rw [hc] at h
        cases h
      | ok xs =>
        rw [hc] at h
        exact key _ h
    · exact key _ h
  · simp only [work, hu, if_true] at h
    cases h
    simp [hr]

theorem copyOut_fault (bi bq : List Int) (lo hi : Int) (e : Fault)
    (h : copyOut bi bq lo hi = Except.error e) : e = Fault.outOfBounds :=
  copyLoop_fault bi bq _ _ e h

/-- With a packet size of at least 1 the loop and the final partial packet
do not run on for ever. -/
theorem work_rest_not_diverges (d : Driver) (s : sdrplay_source_c) (n : Int)
    (head : List gr_complex × Int) (hP : 1 ≤ s._dev.samplesPerPacket) :
    work_rest d s n head ≠ Except.error Fault.diverges := by
  intro h
  simp only [work_rest, bind, Except.bind, pure, Except.pure] at h
  split at h
  · rename_i e he
    cases h
    exact (work_loop_fuel d (head.2.toNat + 1) 0 s head.2 hP (by omega)).2 he
  · split at h
    · split at h
      · rename_i e he
        cases h
        exact absurd (copyOut_fault _ _ _ _ _ he) (by decide)
      · cases h
    · cases h

/-- With a packet size of at least 1 a call of `work` on a running session does
not run on for ever. -/
theorem work_not_diverges (d : Driver) (s : sdrplay_source_c) (n : Int)
    (hr : s._running = true) (hP : 1 ≤ s._dev.samplesPerPacket) :
    work d s n ≠ Except.error Fault.diverges := by
  cases hu : s._uninit
  · rw [work_eq_rest d s n hu hr]
    split
    · cases hc : copyOut s._bufi s._bufq s._buf_offset s._dev.samplesPerPacket with
      | error e =>
        intro h
        cases h
        exact absurd (copyOut_fault _ _ _ _ _ hc) (by decide)
      | ok xs => exact work_rest_not_diverges d s n _ hP
    · exact work_rest_not_diverges d s n _ hP
  · simp [work, hu]

/-- With a packet size of 0 or less the full-packet loop, once entered, never
ends: no amount of fuel is enough. -/
theorem work_loop_diverges (d : Driver) (fuel : Nat) (s : sdrplay_source_c) (cnt : Int)
    (hP : s._dev.samplesPerPacket ≤ 0) (hc : 0 ≤ cnt - s._dev.samplesPerPacket) :
    work_loop d fuel s cnt = Except.error Fault.diverges := by
  induction fuel generalizing s cnt with
  | zero => simp [work_loop, hc]
  | succ fuel ih =>
    have hd : (mir_sdr_ReadPacket d s)._dev = s._dev := rfl
    have hcopy : copyOut (mir_sdr_ReadPacket d s)._bufi (mir_sdr_ReadPacket d s)._bufq 0
        s._dev.samplesPerPacket = Except.ok [] := by
      have e : (s._dev.samplesPerPacket - 0).toNat = 0 := by omega
      simp only [copyOut, e, copyLoop]
    have hrec := ih (mir_sdr_ReadPacket d s) (cnt - s._dev.samplesPerPacket)
      (by rw [hd]; exact hP) (by rw [hd]; omega)
    simp only [work_loop, hc, if_true, hd, hcopy, hrec, bind, Except.bind]

/-! ## Claims -/

/-- C1: on a fresh object, with a driver that negotiates packets of 4 samples,
the requests 1, 1 make the two calls write 1 and 3 items, the whole first
packet, which is not the first 2 samples of the packet stream; the second
call also reads a second packet, puts none of it out and leaves the carry-over
offset at -2, and a third call then reads outside the buffers. -/
theorem C1_short_request_after_carry_over :
    (workSeq exDriver exFresh [1, 1]).map (fun r => (r.2, r.1._buf_offset, r.1.reads))
      = Except.ok ([[toComplex 1 (-1)], [toComplex 2 (-2), toComplex 3 (-3), toComplex 4 (-4)]],
          -2, 2) ∧
    (workSeq exDriver exFresh [1, 1]).map (fun r => r.2.flatten)
      ≠ Except.ok ((packet exDriver 0 ++ packet exDriver 1).take (1 + 1)) ∧
    (workSeq exDriver exFresh [1, 1, 1]).map (fun r => r.2) = Except.error Fault.outOfBounds := by
  decide!

/-- C2: a running session with packet size 4 and carry-over offset 1 (reached
from a fresh object by one call of `work(1)`) is asked for one more item: the
call returns 1 but writes 3 items through `out`, the whole carried-over tail,
and leaves the carry-over offset at -2. -/
theorem C2_writes_more_than_requested :
    (work exDriver exFresh 1).map
        (fun w => (w.state._running, w.state._dev.samplesPerPacket, w.state._buf_offset))
      = Except.ok (true, 4, 1) ∧
    ((work exDriver exFresh 1).bind fun w => work exDriver w.state 1).map
        (fun w => (w.out, w.out.length, w.ret, w.state._buf_offset))
      = Except.ok ([toComplex 2 (-2), toComplex 3 (-3), toComplex 4 (-4)], 3, 1, -2) := by
  decide!

/-- C3: from an empty carry-over, `work(k)` followed by `work(P - k)` with
`0 < k < P` both succeed, read one packet between them, write between them
exactly what a single `work(P)` writes, namely the items of that packet, and
end in the same state as the single call, with carry-over offset 0. -/
theorem C3_split_request (d : Driver) (P : Nat) (k : Int) (s : sdrplay_source_c)
    (hu : s._uninit = false) (hr : s._running = true) (ho : s._buf_offset = 0)
    (hP : s._dev.samplesPerPacket = P) (hk0 : 0 < k) (hkP : k < P)
    (hi : P ≤ s._bufi.length) (hq : P ≤ s._bufq.length)
    (hxi : (d.pkt s.reads).xi.length = P) (hxq : (d.pkt s.reads).xq.length = P) :
    ∃ w1 w2 w, work d s k = Except.ok w1 ∧ work d w1.state (P - k) = Except.ok w2 ∧
      work d s P = Except.ok w ∧
      w1.out ++ w2.out = w.out ∧ w.out = packet d s.reads ∧
      w2.state.reads = s.reads + 1 ∧ w.state.reads = s.reads + 1 ∧
      w2.state._buf_offset = 0 ∧ w2.state = w.state ∧
      w1.ret = k ∧ w2.ret = P - k ∧ w.ret = P := by
  have hpos : 1 ≤ P := by omega
  have h1 := work_partial d s P k hu hr ho hP hk0 hkP hi hq hxi hxq
  have h := work_full_packet d s P hu hr ho hP hpos hi hq hxi hxq
  have h2 := work_tail d { mir_sdr_ReadPacket d s with _buf_offset := k } P k hu hr rfl hP hk0 hkP
    (by show P ≤ (store _ _).length; rw [store_length]; exact hi)
    (by show P ≤ (store _ _).length; rw [store_length]; exact hq)
  refine ⟨_, _, _, h1, h2, h, ?_, rfl, rfl, rfl, rfl, rfl, rfl, rfl, rfl⟩
  show List.take k.toNat (packet d s.reads)
      ++ List.drop k.toNat (List.take P (scaled (store _ _) (store _ _))) = packet d s.reads
  rw [scaled_store _ _ _ _ P hxi hxq hi hq]
  show List.take k.toNat (packet d s.reads) ++ List.drop k.toNat (packet d s.reads) = _
  exact List.take_append_drop _ _

/-- C3 on the running example object with packet size 4 and `k = 1`. -/
theorem C3_split_request_witness :
    exRunning._uninit = false ∧ exRunning._running = true ∧ exRunning._buf_offset = 0 ∧
    exRunning._dev.samplesPerPacket = ((4 : Nat) : Int) ∧ (0 : Int) < 1 ∧ (1 : Int) < ((4 : Nat) : Int) ∧
    4 ≤ exRunning._bufi.length ∧ 4 ≤ exRunning._bufq.length ∧
    (exDriver.pkt exRunning.reads).xi.length = 4 ∧ (exDriver.pkt exRunning.reads).xq.length = 4 ∧
    ∃ w1 w2 w, work exDriver exRunning 1 = Except.ok w1 ∧
      work exDriver w1.state (((4 : Nat) : Int) - 1) = Except.ok w2 ∧
      work exDriver exRunning ((4 : Nat) : Int) = Except.ok w ∧
      w1.out ++ w2.out = w.out ∧ w.out = packet exDriver exRunning.reads ∧
      w2.state.reads = exRunning.reads + 1 ∧ w.state.reads = exRunning.reads + 1 ∧
      w2.state._buf_offset = 0 ∧ w2.state = w.state ∧
      w1.ret = 1 ∧ w2.ret = ((4 : Nat) : Int) - 1 ∧ w.ret = ((4 : Nat) : Int) :=
  ⟨rfl, rfl, rfl, rfl, by decide, by decide, by decide!, by decide!, rfl, rfl,
    C3_split_request exDriver 4 1 exRunning rfl rfl rfl rfl (by decide) (by decide)
      (by decide!) (by decide!) rfl rfl⟩

/-- C4: from an empty carry-over, `m` successive calls `work(P)` succeed; the
j-th of them writes exactly the items of the j-th packet delivered, and after
the `m` calls (for every `m`, so after each call) exactly `m` packets have been
read and the carry-over offset is 0. -/
theorem C4_one_packet_per_call (d : Driver) (P m : Nat) (s : sdrplay_source_c)
    (hu : s._uninit = false) (hr : s._running = true) (ho : s._buf_offset = 0)
    (hP : s._dev.samplesPerPacket = P) (hpos : 1 ≤ P)
    (hi : P ≤ s._bufi.length) (hq : P ≤ s._bufq.length)
    (hpk : ∀ j, (d.pkt (s.reads + j)).xi.length = P ∧ (d.pkt (s.reads + j)).xq.length = P) :
    ∃ s', workSeq d s (List.replicate m (P : Int))
        = Except.ok (s', (List.range m).map (fun j => packet d (s.reads + j))) ∧
      s'._buf_offset = 0 ∧ s'.reads = s.reads + m ∧
      s'._dev.samplesPerPacket = P ∧ s'._running = true := by
  induction m generalizing s with
  | zero => exact ⟨s, by simp [workSeq], ho, by simp, hP, hr⟩
  | succ m ih =>
    have h0 := hpk 0
    simp only [Nat.add_zero] at h0
    have hw := work_full_packet d s P hu hr ho hP hpos hi hq h0.1 h0.2
    obtain ⟨s', hs', ho', hr', hP', hrun'⟩ :=
      ih { mir_sdr_ReadPacket d s with _buf_offset := 0 } hu hr rfl hP
        (by show P ≤ (store _ _).length; rw [store_length]; exact hi)
        (by show P ≤ (store _ _).length; rw [store_length]; exact hq)
        (fun j => by
          have h := hpk (1 + j)
          have e : s.reads + (1 + j) = s.reads + 1 + j := by omega
          rw [e] at h
          exact h)
    refine ⟨s', ?_, ho', ?_, hP', hrun'⟩
    · have e : ∀ j, s.reads + 1 + j = s.reads + (j + 1) := fun j => by omega
      simp only [List.replicate_succ, workSeq, hw, bind, Except.bind, hs', pure, Except.pure,
        List.range_succ_eq_map, List.map_cons, List.map_map, Nat.add_zero]
      simp [Function.comp_def, mir_sdr_ReadPacket, e]
    · rw [hr']
      show s.reads + 1 + m = s.reads + (m + 1)
      omega

/-- C4 on the running example object with packet size 4: three calls `work(4)`. -/
theorem C4_one_packet_per_call_witness :
    exRunning._uninit = false ∧ exRunning._running = true ∧ exRunning._buf_offset = 0 ∧
    exRunning._dev.samplesPerPacket = ((4 : Nat) : Int) ∧ 1 ≤ 4 ∧
    4 ≤ exRunning._bufi.length ∧ 4 ≤ exRunning._bufq.length ∧
    (∀ j, (exDriver.pkt (exRunning.reads + j)).xi.length = 4 ∧
      (exDriver.pkt (exRunning.reads + j)).xq.length = 4) ∧
    ∃ s', workSeq exDriver exRunning (List.replicate 3 (((4 : Nat) : Int)))
        = Except.ok (s', (List.range 3).map (fun j => packet exDriver (exRunning.reads + j))) ∧
      s'._buf_offset = 0 ∧ s'.reads = exRunning.reads + 3 ∧
      s'._dev.samplesPerPacket = ((4 : Nat) : Int) ∧ s'._running = true :=
  ⟨rfl, rfl, rfl, rfl, by decide, by decide!, by decide!, fun _ => ⟨rfl, rfl⟩,
    C4_one_packet_per_call exDriver 4 3 exRunning rfl rfl rfl rfl (by decide)
      (by decide!) (by decide!) (fun _ => ⟨rfl, rfl⟩)⟩

/-- C5 (counterexample): the running example object is retuned to `2^-44` Hz
and then to 10 000 Hz.  The exact change `10000 - 2^-44` is less than 10 kHz
in magnitude, but the `double` difference is `10000.0`, not below
the threshold: the call makes the calls of one reinit (`mir_sdr_Uninit`, then
`mir_sdr_Init`), one init more, and no `mir_sdr_SetRf`. -/
theorem C5_exact_delta_below_threshold_reinits :
    exTinyFreq._running = true ∧ exTinyFreq._dev.rfHz = 1 / 2 ^ 44 ∧
    |(10000 : ℚ) - exTinyFreq._dev.rfHz| < 10000 ∧
    fsub 10000 exTinyFreq._dev.rfHz = 10000 ∧
    (set_center_freq exDriver exTinyFreq 10000).1.calls = exTinyFreq.calls ++
      [DriverCall.Uninit,
       DriverCall.Init 60 (2048000 / 1000000) (10000 / 1000000) mir_sdr_BW_1_536 mir_sdr_IF_Zero] ∧
    (set_center_freq exDriver exTinyFreq 10000).1.inits = exTinyFreq.inits + 1 := by
  refine ⟨by decide!, by decide!, by decide!, by decide!, by decide!, by decide!⟩

/-- C5 (amended): on a running session, a change of the centre frequency, and
likewise of the sample rate, is judged by the `double` difference `d` of the
new and the stored value.  If `|d| < 10000` the call makes exactly one driver
call, the in-place adjustment by `d`, and no init; otherwise it makes exactly
the calls of one reinit (`mir_sdr_Uninit`, then `mir_sdr_Init` with the new
parameters, then the DC mode once more if it is set) and no in-place
adjustment.  `|d| < 10000` holds exactly when the exact difference is less
than `10000 - 2^-40` in magnitude, so every exact change of 10 kHz or more
reinitialises; a step of 5 000 Hz makes no init, a step of 50 000 Hz makes one. -/
theorem C5_double_delta_in_place_or_reinit (d : Driver) (s : sdrplay_source_c) (f rate : ℚ)
    (hr : s._running = true) :
    (|fsub f s._dev.rfHz| < 10000 →
      (set_center_freq d s f).1.calls
        = s.calls ++ [DriverCall.SetRf (fsub f s._dev.rfHz) 0 0] ∧
      (set_center_freq d s f).1.inits = s.inits) ∧
    (¬ |fsub f s._dev.rfHz| < 10000 →
      (set_center_freq d s f).1.calls = s.calls ++
        [DriverCall.Uninit,
         DriverCall.Init s._dev.gRdB (s._dev.fsHz / 1000000) (f / 1000000) s._dev.bwType s._dev.ifType]
        ++ (if s._dev.dcMode ≠ 0 then [DriverCall.SetDcMode 4 1] else []) ∧
      (set_center_freq d s f).1.inits = s.inits + 1) ∧
    (|fsub rate s._dev.fsHz| < 10000 →
      (set_sample_rate d s rate).1.calls
        = s.calls ++ [DriverCall.SetFs (fsub rate s._dev.fsHz) 0 0 0] ∧
      (set_sample_rate d s rate).1.inits = s.inits) ∧
    (¬ |fsub rate s._dev.fsHz| < 10000 →
      (set_sample_rate d s rate).1.calls = s.calls ++
        [DriverCall.Uninit,
         DriverCall.Init s._dev.gRdB (rate / 1000000) (s._dev.rfHz / 1000000) s._dev.bwType s._dev.ifType]
        ++ (if s._dev.dcMode ≠ 0 then [DriverCall.SetDcMode 4 1] else []) ∧
      (set_sample_rate d s rate).1.inits = s.inits + 1) ∧
    (|fsub f s._dev.rfHz| < 10000 ↔ |f - s._dev.rfHz| < 10000 - 1 / 2 ^ 40) ∧
    (|fsub rate s._dev.fsHz| < 10000 ↔ |rate - s._dev.fsHz| < 10000 - 1 / 2 ^ 40) ∧
    (set_center_freq d s (s._dev.rfHz + 5000)).1.inits = s.inits ∧
    (set_center_freq d s (s._dev.rfHz + 50000)).1.inits = s.inits + 1 := by
  have hf1 : ∀ x : ℚ, |fsub x s._dev.rfHz| < 10000 →
      (set_center_freq d s x).1.calls
        = s.calls ++ [DriverCall.SetRf (fsub x s._dev.rfHz) 0 0] ∧
      (set_center_freq d s x).1.inits = s.inits := by
    intro x h
    simp [set_center_freq, hr, h, logCall]
  have hf2 : ∀ x : ℚ, ¬ |fsub x s._dev.rfHz| < 10000 →
      (set_center_freq d s x).1.calls = s.calls ++
        [DriverCall.Uninit,
         DriverCall.Init s._dev.gRdB (s._dev.fsHz / 1000000) (x / 1000000) s._dev.bwType s._dev.ifType]
        ++ (if s._dev.dcMode ≠ 0 then [DriverCall.SetDcMode 4 1] else []) ∧
      (set_center_freq d s x).1.inits = s.inits + 1 := by
    intro x h
    simp only [set_center_freq, hr, h, if_true, if_false, reinit_device_calls, reinit_device_inits]
    rw [set_gain_limits_eq]
    simp
  refine ⟨hf1 f, hf2 f, ?_, ?_, abs_fl_lt_iff _, abs_fl_lt_iff _, ?_, ?_⟩
  · intro h
    simp [set_sample_rate, hr, h, logCall]
  · intro h
    simp only [set_sample_rate, hr, h, if_true, if_false, reinit_device_calls, reinit_device_inits]
    simp
  · refine (hf1 _ ?_).2
    unfold fsub
    rw [abs_fl_lt_iff, add_sub_cancel_left]
    norm_num
  · refine (hf2 _ ?_).2
    unfold fsub
    rw [abs_fl_lt_iff, add_sub_cancel_left]
    norm_num

/-- C5 on the running example object, tuned to 200 MHz at 2.048 MS/s: a step
of 5 kHz has the `double` difference 5000 and makes the single call
`mir_sdr_SetRf(5000, 0, 0)` (resp. `mir_sdr_SetFs(5000, 0, 0, 0)`) and no
init, a step of 50 kHz makes the calls of one reinit and one init. -/
theorem C5_double_delta_in_place_or_reinit_witness :
    exRunning._running = true ∧
    (fsub 200005000 exRunning._dev.rfHz = 5000 ∧
      |fsub 200005000 exRunning._dev.rfHz| < 10000 ∧
      (set_center_freq exDriver exRunning 200005000).1.calls
        = exRunning.calls ++ [DriverCall.SetRf (fsub 200005000 exRunning._dev.rfHz) 0 0] ∧
      (set_center_freq exDriver exRunning 200005000).1.inits = exRunning.inits) ∧
    (¬ |fsub 200050000 exRunning._dev.rfHz| < 10000 ∧
      (set_center_freq exDriver exRunning 200050000).1.calls = exRunning.calls ++
        [DriverCall.Uninit,
         DriverCall.Init exRunning._dev.gRdB (exRunning._dev.fsHz / 1000000) (200050000 / 1000000)
           exRunning._dev.bwType exRunning._dev.ifType]
        ++ (if exRunning._dev.dcMode ≠ 0 then [DriverCall.SetDcMode 4 1] else []) ∧
      (set_center_freq exDriver exRunning 200050000).1.inits = exRunning.inits + 1) ∧
    (fsub 2053000 exRunning._dev.fsHz = 5000 ∧
      |fsub 2053000 exRunning._dev.fsHz| < 10000 ∧
      (set_sample_rate exDriver exRunning 2053000).1.calls
        = exRunning.calls ++ [DriverCall.SetFs (fsub 2053000 exRunning._dev.fsHz) 0 0 0] ∧
      (set_sample_rate exDriver exRunning 2053000).1.inits = exRunning.inits) ∧
    (¬ |fsub 2098000 exRunning._dev.fsHz| < 10000 ∧
      (set_sample_rate exDriver exRunning 2098000).1.calls = exRunning.calls ++
        [DriverCall.Uninit,
         DriverCall.Init exRunning._dev.gRdB (2098000 / 1000000) (exRunning._dev.rfHz / 1000000)
           exRunning._dev.bwType exRunning._dev.ifType]
        ++ (if exRunning._dev.dcMode ≠ 0 then [DriverCall.SetDcMode 4 1] else []) ∧
      (set_sample_rate exDriver exRunning 2098000).1.inits = exRunning.inits + 1) :=
  ⟨rfl,
    ⟨by decide!, by decide!,
      (C5_double_delta_in_place_or_reinit exDriver exRunning 200005000 2053000 rfl).1
        (by decide!)⟩,
    ⟨by decide!,
      (C5_double_delta_in_place_or_reinit exDriver exRunning 200050000 2053000 rfl).2.1
        (by decide!)⟩,
    ⟨by decide!, by decide!,
      (C5_double_delta_in_place_or_reinit exDriver exRunning 200005000 2053000 rfl).2.2.1
        (by decide!)⟩,
    ⟨by decide!,
      (C5_double_delta_in_place_or_reinit exDriver exRunning 200005000 2098000 rfl).2.2.2.1
        (by decide!)⟩⟩

/-- C6: with limits `minGain ≤ maxGain`, `set_gain(g)` returns what `get_gain`
then reports: `maxGain` when `g > maxGain`, `minGain` when `g < minGain`, and
`g` otherwise; the limits are left as they were, `set_gain(maxGain + 50)`
returns `maxGain` and `set_gain(minGain - 50)` returns `minGain`. -/
theorem C6_set_gain_saturates (s : sdrplay_source_c) (g : ℚ)
    (hlim : s._dev.minGain ≤ s._dev.maxGain) :
    (set_gain s g).2 = get_gain (set_gain s g).1 ∧
    ((s._dev.maxGain : ℚ) < g → (set_gain s g).2 = s._dev.maxGain) ∧
    (g < (s._dev.minGain : ℚ) → (set_gain s g).2 = s._dev.minGain) ∧
    ((s._dev.minGain : ℚ) ≤ g → g ≤ (s._dev.maxGain : ℚ) → (set_gain s g).2 = g) ∧
    limitsOf (set_gain s g).1._dev = limitsOf s._dev ∧
    (set_gain s ((s._dev.maxGain : ℚ) + 50)).2 = s._dev.maxGain ∧
    (set_gain s ((s._dev.minGain : ℚ) - 50)).2 = s._dev.minGain := by
  have hq : (s._dev.minGain : ℚ) ≤ (s._dev.maxGain : ℚ) := by exact_mod_cast hlim
  have key : ∀ x : ℚ, (set_gain s x).2 =
      if (s._dev.maxGain : ℚ) < x then (s._dev.maxGain : ℚ)
      else if x < (s._dev.minGain : ℚ) then (s._dev.minGain : ℚ) else x := by
    intro x
    simp only [set_gain, get_gain, logCall]
    split_ifs <;> simp_all
  refine ⟨rfl, ?_, ?_, ?_, ?_, ?_, ?_⟩
  · intro h
    rw [key, if_pos h]
  · intro h
    rw [key, if_neg (by linarith), if_pos h]
  · intro h1 h2
    rw [key, if_neg (by linarith), if_neg (by linarith)]
  · simp only [set_gain, logCall, limitsOf]
    split_ifs <;> rfl
  · rw [key, if_pos (by linarith)]
  · rw [key, if_neg (by linarith), if_pos (by linarith)]

/-- C6 on the fresh object, whose limits are (5, 107): a request of 157 returns
107, a request of -45 returns 5, and a request of 50 returns 50. -/
theorem C6_set_gain_saturates_witness :
    exFresh._dev.minGain ≤ exFresh._dev.maxGain ∧
    ((exFresh._dev.maxGain : ℚ) < 157 ∧ (set_gain exFresh 157).2 = exFresh._dev.maxGain) ∧
    ((-45 : ℚ) < (exFresh._dev.minGain : ℚ) ∧ (set_gain exFresh (-45)).2 = exFresh._dev.minGain) ∧
    ((exFresh._dev.minGain : ℚ) ≤ 50 ∧ (50 : ℚ) ≤ (exFresh._dev.maxGain : ℚ) ∧
      (set_gain exFresh 50).2 = 50) :=
  ⟨by decide,
    ⟨by decide!, (C6_set_gain_saturates exFresh 157 (by decide)).2.1 (by decide!)⟩,
    ⟨by decide!, (C6_set_gain_saturates exFresh (-45) (by decide)).2.2.1 (by decide!)⟩,
    ⟨by decide!, by decide!,
      (C6_set_gain_saturates exFresh 50 (by decide)).2.2.2.1 (by decide!) (by decide!)⟩⟩

/-- C7: `set_bandwidth(b)` returns what `get_bandwidth` then reports, one of
the eight supported values: the smallest of them that is at least `b`, or
8000e3 when `b` exceeds them all; a request of 1 000 000 yields 1 536 000. -/
theorem C7_bandwidth_quantised (d : Driver) (s : sdrplay_source_c) (b : ℚ) :
    (set_bandwidth d s b).2 = get_bandwidth (set_bandwidth d s b).1 ∧
    (set_bandwidth d s b).2 ∈ get_bandwidth_range ∧
    (b ≤ 8000000 → b ≤ (set_bandwidth d s b).2 ∧
      ∀ v ∈ get_bandwidth_range, b ≤ v → (set_bandwidth d s b).2 ≤ v) ∧
    (8000000 < b → (set_bandwidth d s b).2 = 8000000) ∧
    (set_bandwidth d s 1000000).2 = 1536000 ∧
    get_bandwidth (set_bandwidth d s 1000000).1 = 1536000 := by
  have hbw : ∀ x : ℚ, (set_bandwidth d s x).1._dev.bwType =
      if x ≤ 200000 then mir_sdr_BW_0_200 else if x ≤ 300000 then mir_sdr_BW_0_300
      else if x ≤ 600000 then mir_sdr_BW_0_600 else if x ≤ 1536000 then mir_sdr_BW_1_536
      else if x ≤ 5000000 then mir_sdr_BW_5_000 else if x ≤ 6000000 then mir_sdr_BW_6_000
      else if x ≤ 7000000 then mir_sdr_BW_7_000 else mir_sdr_BW_8_000 := by
    intro x
    simp only [set_bandwidth]
    cases s._running
    · rfl
    · simp only [if_true, reinit_device_bwType]
  have key : ∀ x : ℚ, (set_bandwidth d s x).2 =
      if x ≤ 200000 then 200000 else if x ≤ 300000 then 300000
      else if x ≤ 600000 then 600000 else if x ≤ 1536000 then 1536000
      else if x ≤ 5000000 then 5000000 else if x ≤ 6000000 then 6000000
      else if x ≤ 7000000 then 7000000 else 8000000 := by
    intro x
    show get_bandwidth (set_bandwidth d s x).1 = _
    unfold get_bandwidth
    rw [hbw x]
    by_cases h1 : x ≤ 200000
    · simp [h1]
    by_cases h2 : x ≤ 300000
    · simp [h1, h2]
    by_cases h3 : x ≤ 600000
    · simp [h1, h2, h3]
    by_cases h4 : x ≤ 1536000
    · simp [h1, h2, h3, h4]
    by_cases h5 : x ≤ 5000000
    · simp [h1, h2, h3, h4, h5]
    by_cases h6 : x ≤ 6000000
    · simp [h1, h2, h3, h4, h5, h6]
    by_cases h7 : x ≤ 7000000
    · simp [h1, h2, h3, h4, h5, h6, h7]
    simp [h1, h2, h3, h4, h5, h6, h7]
  have k1 : (set_bandwidth d s 1000000).2 = 1536000 := by
    rw [key]
    norm_num
  refine ⟨rfl, ?_, ?_, ?_, k1, k1⟩
  · rw [key]
    simp only [get_bandwidth_range]
    split_ifs <;> simp
  · intro hb
    rw [key]
    refine ⟨?_, ?_⟩
    · split_ifs <;> linarith
    · intro v hv hbv
      simp only [get_bandwidth_range, List.mem_cons, List.mem_singleton, List.not_mem_nil,
        or_false] at hv
      split_ifs <;> rcases hv with rfl | rfl | rfl | rfl | rfl | rfl | rfl | rfl <;> linarith
  · intro hb
    rw [key]
    have a1 : ¬ b ≤ 200000 := by linarith
    have a2 : ¬ b ≤ 300000 := by linarith
    have a3 : ¬ b ≤ 600000 := by linarith
    have a4 : ¬ b ≤ 1536000 := by linarith
    have a5 : ¬ b ≤ 5000000 := by linarith
    have a6 : ¬ b ≤ 6000000 := by linarith
    have a7 : ¬ b ≤ 7000000 := by linarith
    simp [a1, a2, a3, a4, a5, a6, a7]

/-- C7 on the fresh object: a request of 1 000 000, at most 8000e3, returns a
value that is at least the request and at most every supported value that is
at least the request; a request of 9 000 000, above 8000e3, returns 8000e3. -/
theorem C7_bandwidth_quantised_witness :
    ((1000000 : ℚ) ≤ 8000000 ∧
      ((1000000 : ℚ) ≤ (set_bandwidth exDriver exFresh 1000000).2 ∧
        ∀ v ∈ get_bandwidth_range, 1000000 ≤ v →
          (set_bandwidth exDriver exFresh 1000000).2 ≤ v)) ∧
    ((8000000 : ℚ) < 9000000 ∧ (set_bandwidth exDriver exFresh 9000000).2 = 8000000) :=
  ⟨⟨by norm_num, (C7_bandwidth_quantised exDriver exFresh 1000000).2.2.1 (by norm_num)⟩,
    ⟨by norm_num, (C7_bandwidth_quantised exDriver exFresh 9000000).2.2.2.1 (by norm_num)⟩⟩

/-- C8: for every frequency up to 1675 MHz `set_gain_limits` sets the limits
to the pair of the band the frequency falls in, whatever the limits were before:
(-4, 98) up to 30 MHz, (1, 103) up to 108 MHz, (5, 107) up to 240 MHz, (9, 94)
up to 960 MHz and (24, 105) up to 1675 MHz; at 100 MHz this is (1, 103) and at
500 MHz (9, 94). -/
theorem C8_gain_limit_bands (dev : sdrplay_dev) (f : ℚ) :
    (f ≤ 30000000 → limitsOf (set_gain_limits dev f) = (-4, 98)) ∧
    (30000000 < f → f ≤ 108000000 → limitsOf (set_gain_limits dev f) = (1, 103)) ∧
    (108000000 < f → f ≤ 240000000 → limitsOf (set_gain_limits dev f) = (5, 107)) ∧
    (240000000 < f → f ≤ 960000000 → limitsOf (set_gain_limits dev f) = (9, 94)) ∧
    (960000000 < f → f ≤ 1675000000 → limitsOf (set_gain_limits dev f) = (24, 105)) ∧
    (∀ dev', f ≤ 1675000000 →
      limitsOf (set_gain_limits dev f) = limitsOf (set_gain_limits dev' f)) ∧
    limitsOf (set_gain_limits dev 100000000) = (1, 103) ∧
    limitsOf (set_gain_limits dev 500000000) = (9, 94) := by
  refine ⟨?_, ?_, ?_, ?_, ?_, ?_, ?_, ?_⟩
  · intro h
    simp [set_gain_limits, limitsOf, SDRPLAY_AM_MAX, h]
  · intro h1 h2
    simp [set_gain_limits, limitsOf, SDRPLAY_AM_MAX, SDRPLAY_FM_MAX, not_le.mpr h1, h2]
  · intro h1 h2
    have a1 : ¬ f ≤ 30000000 := by linarith
    simp [set_gain_limits, limitsOf, SDRPLAY_AM_MAX, SDRPLAY_FM_MAX, SDRPLAY_B3_MAX,
      not_le.mpr h1, a1, h2]
  · intro h1 h2
    have a1 : ¬ f ≤ 30000000 := by linarith
    have a2 : ¬ f ≤ 108000000 := by linarith
    simp [set_gain_limits, limitsOf, SDRPLAY_AM_MAX, SDRPLAY_FM_MAX, SDRPLAY_B3_MAX,
      SDRPLAY_B45_MAX, not_le.mpr h1, a1, a2, h2]
  · intro h1 h2
    have a1 : ¬ f ≤ 30000000 := by linarith
    have a2 : ¬ f ≤ 108000000 := by linarith
    have a3 : ¬ f ≤ 240000000 := by linarith
    simp [set_gain_limits, limitsOf, SDRPLAY_AM_MAX, SDRPLAY_FM_MAX, SDRPLAY_B3_MAX,
      SDRPLAY_B45_MAX, SDRPLAY_L_MAX, not_le.mpr h1, a1, a2, a3, h2]
  · intro dev' h
    simp only [set_gain_limits, limitsOf, SDRPLAY_AM_MAX, SDRPLAY_FM_MAX, SDRPLAY_B3_MAX,
      SDRPLAY_B45_MAX, SDRPLAY_L_MAX, h, if_true]
    split_ifs <;> rfl
  · simp only [set_gain_limits, limitsOf, SDRPLAY_AM_MAX, SDRPLAY_FM_MAX]
    norm_num
  · simp only [set_gain_limits, limitsOf, SDRPLAY_AM_MAX, SDRPLAY_FM_MAX, SDRPLAY_B3_MAX,
      SDRPLAY_B45_MAX]
    norm_num

/-- C8 on the record of the fresh object, one frequency in each band: 10 MHz,
64 MHz, 200 MHz, 500 MHz and 1500 MHz, and against a record with other limits. -/
theorem C8_gain_limit_bands_witness :
    ((10000000 : ℚ) ≤ 30000000 ∧
      limitsOf (set_gain_limits exFresh._dev 10000000) = (-4, 98)) ∧
    ((30000000 : ℚ) < 64000000 ∧ (64000000 : ℚ) ≤ 108000000 ∧
      limitsOf (set_gain_limits exFresh._dev 64000000) = (1, 103)) ∧
    ((108000000 : ℚ) < 200000000 ∧ (200000000 : ℚ) ≤ 240000000 ∧
      limitsOf (set_gain_limits exFresh._dev 200000000) = (5, 107)) ∧
    ((240000000 : ℚ) < 500000000 ∧ (500000000 : ℚ) ≤ 960000000 ∧
      limitsOf (set_gain_limits exFresh._dev 500000000) = (9, 94)) ∧
    ((960000000 : ℚ) < 1500000000 ∧ (1500000000 : ℚ) ≤ 1675000000 ∧
      limitsOf (set_gain_limits exFresh._dev 1500000000) = (24, 105)) ∧
    ((1500000000 : ℚ) ≤ 1675000000 ∧
      limitsOf (set_gain_limits exFresh._dev 1500000000)
        = limitsOf (set_gain_limits (set_gain exFresh 50).1._dev 1500000000)) :=
  ⟨⟨by norm_num, (C8_gain_limit_bands exFresh._dev 10000000).1 (by norm_num)⟩,
    ⟨by norm_num, by norm_num,
      (C8_gain_limit_bands exFresh._dev 64000000).2.1 (by norm_num) (by norm_num)⟩,
    ⟨by norm_num, by norm_num,
      (C8_gain_limit_bands exFresh._dev 200000000).2.2.1 (by norm_num) (by norm_num)⟩,
    ⟨by norm_num, by norm_num,
      (C8_gain_limit_bands exFresh._dev 500000000).2.2.2.1 (by norm_num) (by norm_num)⟩,
    ⟨by norm_num, by norm_num,
      (C8_gain_limit_bands exFresh._dev 1500000000).2.2.2.2.1 (by norm_num) (by norm_num)⟩,
    ⟨by norm_num,
      (C8_gain_limit_bands exFresh._dev 1500000000).2.2.2.2.2.1 _ (by norm_num)⟩⟩

/-- C9 (counterexample): the second read of `exFaultDriver` reports a fault and
stores nothing.  After `work(4)` has put out packet 0, the call `work(2)` that
meets the fault still returns 2, writes two items (those of packet 0 once
more, still in the buffers) and leaves the carry-over offset at 2; the next
call `work(2)` returns 2, not `WORK_DONE`, and writes the two items that follow. -/
theorem C9_fault_not_reported :
    (exFaultDriver.pkt 1).status ≠ 0 ∧
    (work exFaultDriver exFresh 4).map (fun w => (w.out, w.ret, w.state._buf_offset, w.state.reads))
      = Except.ok ([toComplex 1 (-1), toComplex 2 (-2), toComplex 3 (-3), toComplex 4 (-4)],
          4, 0, 1) ∧
    ((work exFaultDriver exFresh 4).bind fun w => work exFaultDriver w.state 2).map
        (fun w => (w.out, w.ret, w.state._buf_offset, w.state.reads))
      = Except.ok ([toComplex 1 (-1), toComplex 2 (-2)], 2, 2, 2) ∧
    (((work exFaultDriver exFresh 4).bind fun w => work exFaultDriver w.state 2).bind
        fun w => work exFaultDriver w.state 2).map
        (fun w => (w.out, w.ret, w.state._buf_offset, w.state.reads))
      = Except.ok ([toComplex 3 (-3), toComplex 4 (-4)], 2, 0, 2) ∧
    (2 : Int) ≠ WORK_DONE := by
  decide!

/-- C9 (amended): `work` does not look at the status a read reports.  Under a
driver whose reads report any statuses whatever it writes the same items,
leaves the same state (carry-over offset included) and returns the same value
as under the driver whose reads store the same samples; and a call that
completes returns `noutput_items`, or `WORK_DONE` exactly when the object was
torn down. -/
theorem C9_read_status_not_examined (d : Driver) (st : Nat → Int) (s : sdrplay_source_c)
    (n : Int) :
    work (withStatus d st) s n = work d s n ∧
    (work d s n).map (fun w => w.ret)
      = (work d s n).map (fun _ => if s._uninit then WORK_DONE else n) := by
  constructor
  · have hre : reinit_device (withStatus d st) s = reinit_device d s := rfl
    have hread : ∀ t, mir_sdr_ReadPacket (withStatus d st) t = mir_sdr_ReadPacket d t :=
      fun _ => rfl
    simp only [work, hre, hread, work_loop_withStatus]
  · cases hu : s._uninit
    · cases h : work d s n with
      | error e => rfl
      | ok w => simp [Except.map, work_ret d s n w hu h]
    · simp [work, hu, Except.map]

/-- C10: on the fresh object the gain is within the limits, and still is after
`set_gain(100)` (limits (5, 107) at 200 MHz); after `set_center_freq(500e6)` the
limits are (9, 94) and the stored gain, still 100, is above `maxGain`. -/
theorem C10_retune_breaks_gain_bounds :
    gainInBounds exFresh ∧ gainInBounds (set_gain exFresh 100).1 ∧
    (set_gain exFresh 100).2 = 100 ∧
    ¬ gainInBounds (set_center_freq exDriver (set_gain exFresh 100).1 500000000).1 ∧
    (set_center_freq exDriver (set_gain exFresh 100).1 500000000).1._dev.gain_dB = 100 ∧
    limitsOf (set_center_freq exDriver (set_gain exFresh 100).1 500000000).1._dev = (9, 94) := by
  decide!

/-- C11 (counterexample): on the fresh object (limits (5, 107), `gRdB = 60`,
`gain_dB = 47`) the relation holds.  After `set_gain(50.25)`, a request
within the limits, the stored and returned gain is 50.25 and `gRdB` is 56, not
`round(56.75) = 57`.  After `set_gain(157)` the stored gain is 107 and `gRdB`
is -50, not `round(0) = 0`; after `set_center_freq(500e6)` on the fresh object
`maxGain` is 94 and `gRdB` is still 60, not `round(47) = 47`. -/
theorem C11_gRdB_not_round_of_stored_gain :
    gRdBConsistent exFresh ∧
    ((exFresh._dev.minGain : ℚ) ≤ 201 / 4 ∧ (201 / 4 : ℚ) ≤ (exFresh._dev.maxGain : ℚ) ∧
      (set_gain exFresh (201 / 4)).2 = 201 / 4 ∧
      (set_gain exFresh (201 / 4)).1._dev.gain_dB = 201 / 4 ∧
      (set_gain exFresh (201 / 4)).1._dev.gRdB = 56 ∧
      round (((set_gain exFresh (201 / 4)).1._dev.maxGain : ℚ)
        - (set_gain exFresh (201 / 4)).1._dev.gain_dB) = 57 ∧
      ¬ gRdBConsistent (set_gain exFresh (201 / 4)).1) ∧
    ((set_gain exFresh 157).1._dev.gain_dB = 107 ∧
      (set_gain exFresh 157).1._dev.gRdB = -50 ∧
      ¬ gRdBConsistent (set_gain exFresh 157).1) ∧
    ((set_center_freq exDriver exFresh 500000000).1._dev.maxGain = 94 ∧
      (set_center_freq exDriver exFresh 500000000).1._dev.gain_dB = 47 ∧
      (set_center_freq exDriver exFresh 500000000).1._dev.gRdB = 60 ∧
      ¬ gRdBConsistent (set_center_freq exDriver exFresh 500000000).1) := by
  refine ⟨by decide!, ⟨by decide!, by decide!, by decide!, by decide!, by decide!, by decide!,
    by decide!⟩, ⟨by decide!, by decide!, by decide!⟩,
    ⟨by decide!, by decide!, by decide!, by decide!⟩⟩

/-- C11 (amended): the constructor's state has `gRdB = round(maxGain - gain_dB)`
and `gRdB = (int)(maxGain - gain_dB)`.  A call `set_gain(g)` with
`minGain ≤ g ≤ maxGain` returns and stores `g` as the gain and stores as
`gRdB` the `double` difference `maxGain - gain_dB` converted by `(int)`, that
is truncated towards zero, and on a running session sends this `gRdB` by
`mir_sdr_SetGr(gRdB, 1, 0)`; when `g` is an integer (and `maxGain - g < 2^53`,
as for all `int` limits) this `gRdB` is `round(maxGain - gain_dB)`.  Each of
the two relations, where it holds, is kept by `set_sample_rate`,
`set_bandwidth`, `set_dc_offset_mode`, `set_gain_mode`, `reinit_device` and
`work`, and by `set_center_freq` when it leaves `maxGain` as it was. -/
theorem C11_gRdB_truncated_difference (d : Driver) (s : sdrplay_source_c) (g : ℚ) (k : Int)
    (memi memq : Nat → Int) (lim0 : Int × Int) :
    (gRdBConsistent (make_sdrplay_source_c memi memq lim0) ∧
      gRdBTruncated (make_sdrplay_source_c memi memq lim0)) ∧
    ((s._dev.minGain : ℚ) ≤ g → g ≤ (s._dev.maxGain : ℚ) →
      (set_gain s g).2 = g ∧
      (set_gain s g).1._dev.gain_dB = g ∧
      (set_gain s g).1._dev.gRdB
        = truncToInt (fsub ((set_gain s g).1._dev.maxGain : ℚ) (set_gain s g).1._dev.gain_dB) ∧
      (s._running = true →
        (set_gain s g).1.calls
          = s.calls ++ [DriverCall.SetGr (set_gain s g).1._dev.gRdB 1 0])) ∧
    (s._dev.minGain ≤ k → k ≤ s._dev.maxGain → s._dev.maxGain - k < 2 ^ 53 →
      gRdBConsistent (set_gain s (k : ℚ)).1) ∧
    (gRdBTruncated s →
      (∀ rate, gRdBTruncated (set_sample_rate d s rate).1) ∧
      (∀ b, gRdBTruncated (set_bandwidth d s b).1) ∧
      (∀ mode, gRdBTruncated (set_dc_offset_mode s mode)) ∧
      (∀ a, gRdBTruncated (set_gain_mode s a).1) ∧
      gRdBTruncated (reinit_device d s) ∧
      (∀ n w, work d s n = Except.ok w → gRdBTruncated w.state) ∧
      (∀ f, (set_gain_limits s._dev f).maxGain = s._dev.maxGain →
        gRdBTruncated (set_center_freq d s f).1)) ∧
    (gRdBConsistent s →
      (∀ rate, gRdBConsistent (set_sample_rate d s rate).1) ∧
      (∀ b, gRdBConsistent (set_bandwidth d s b).1) ∧
      (∀ mode, gRdBConsistent (set_dc_offset_mode s mode)) ∧
      (∀ a, gRdBConsistent (set_gain_mode s a).1) ∧
      gRdBConsistent (reinit_device d s) ∧
      (∀ n w, work d s n = Except.ok w → gRdBConsistent w.state) ∧
      (∀ f, (set_gain_limits s._dev f).maxGain = s._dev.maxGain →
        gRdBConsistent (set_center_freq d s f).1)) := by
  have hg : ∀ x : ℚ, (s._dev.minGain : ℚ) ≤ x → x ≤ (s._dev.maxGain : ℚ) →
      (set_gain s x).1._dev = { s._dev with gain_dB := x,
                                             gRdB := truncToInt (fsub (s._dev.maxGain : ℚ) x) } := by
    intro x h1 h2
    have a1 : ¬ x < (s._dev.minGain : ℚ) := not_lt.mpr h1
    have a2 : ¬ x > (s._dev.maxGain : ℚ) := not_lt.mpr h2
    simp only [set_gain, logCall, a1, a2, if_false]
    split_ifs <;> rfl
  obtain ⟨k1, k2, k3, k4, k5, k6, k7⟩ := gain_fields_kept d s
  refine ⟨⟨?_, ?_⟩, ?_, ?_, ?_, ?_⟩
  · obtain ⟨h1, _, h3, h4, _, _⟩ := make_sdrplay_source_c_gain memi memq lim0
    unfold gRdBConsistent
    rw [h1, h3, h4]
    have e : (((107 : Int) : ℚ) - 47) = ((60 : Int) : ℚ) := by norm_num
    rw [e, round_intCast]
  · obtain ⟨h1, _, h3, h4, _, _⟩ := make_sdrplay_source_c_gain memi memq lim0
    unfold gRdBTruncated fsub
    rw [h1, h3, h4]
    have e : (((107 : Int) : ℚ) - 47) = ((60 : Int) : ℚ) := by norm_num
    rw [e, fl_intCast 60 (by norm_num), truncToInt_intCast]
  · intro h1 h2
    have a1 : ¬ g < (s._dev.minGain : ℚ) := not_lt.mpr h1
    have a2 : ¬ g > (s._dev.maxGain : ℚ) := not_lt.mpr h2
    refine ⟨?_, by rw [hg g h1 h2], by rw [hg g h1 h2], ?_⟩
    · have e : (set_gain s g).2 = (set_gain s g).1._dev.gain_dB := by
        simp only [set_gain, get_gain, ite_self]
      rw [e, hg g h1 h2]
    · intro hr
      simp [set_gain, logCall, a1, a2, hr]
  · intro h1 h2 h3
    have h1q : (s._dev.minGain : ℚ) ≤ (k : ℚ) := by exact_mod_cast h1
    have h2q : (k : ℚ) ≤ (s._dev.maxGain : ℚ) := by exact_mod_cast h2
    unfold gRdBConsistent
    rw [hg _ h1q h2q]
    have e : ((s._dev.maxGain : ℚ) - (k : ℚ)) = ((s._dev.maxGain - k : Int) : ℚ) := by
      push_cast
      ring
    show truncToInt (fsub (s._dev.maxGain : ℚ) (k : ℚ)) = round ((s._dev.maxGain : ℚ) - (k : ℚ))
    unfold fsub
    rw [e, fl_intCast _ (by rw [abs_of_nonneg (by omega)]; exact h3), truncToInt_intCast,
      round_intCast]
  · intro hs
    unfold gRdBTruncated at *
    refine ⟨fun x => ?_, fun x => ?_, fun x => ?_, fun x => ?_, ?_, fun n w hw => ?_,
      fun f hf => ?_⟩
    · rw [(k1 x).1, (k1 x).2.1, (k1 x).2.2]; exact hs
    · rw [(k2 x).1, (k2 x).2.1, (k2 x).2.2]; exact hs
    · rw [(k3 x).1, (k3 x).2.1, (k3 x).2.2]; exact hs
    · rw [(k4 x).1, (k4 x).2.1, (k4 x).2.2]; exact hs
    · rw [k5.1, k5.2.1, k5.2.2]; exact hs
    · rw [(k6 n w hw).1, (k6 n w hw).2.1, (k6 n w hw).2.2]; exact hs
    · rw [(k7 f hf).1, (k7 f hf).2.1, (k7 f hf).2.2]; exact hs
  · intro hs
    unfold gRdBConsistent at *
    refine ⟨fun x => ?_, fun x => ?_, fun x => ?_, fun x => ?_, ?_, fun n w hw => ?_,
      fun f hf => ?_⟩
    · rw [(k1 x).1, (k1 x).2.1, (k1 x).2.2]; exact hs
    · rw [(k2 x).1, (k2 x).2.1, (k2 x).2.2]; exact hs
    · rw [(k3 x).1, (k3 x).2.1, (k3 x).2.2]; exact hs
    · rw [(k4 x).1, (k4 x).2.1, (k4 x).2.2]; exact hs
    · rw [k5.1, k5.2.1, k5.2.2]; exact hs
    · rw [(k6 n w hw).1, (k6 n w hw).2.1, (k6 n w hw).2.2]; exact hs
    · rw [(k7 f hf).1, (k7 f hf).2.1, (k7 f hf).2.2]; exact hs

/-- C11 on the example objects (limits (5, 107)): the request 50.25 on the
running object is returned and stored, `gRdB` is `(int)56.75 = 56` and is sent
by `mir_sdr_SetGr(56, 1, 0)`; the integer request 50 on the fresh object gives
`gRdB = round(107 - 50)`; and both relations, which hold on the fresh object,
are kept by `set_sample_rate`. -/
theorem C11_gRdB_truncated_difference_witness :
    ((exRunning._dev.minGain : ℚ) ≤ 201 / 4 ∧ (201 / 4 : ℚ) ≤ (exRunning._dev.maxGain : ℚ) ∧
      exRunning._running = true ∧
      (set_gain exRunning (201 / 4)).1._dev.gRdB = 56 ∧
      (set_gain exRunning (201 / 4)).2 = 201 / 4 ∧
      (set_gain exRunning (201 / 4)).1._dev.gain_dB = 201 / 4 ∧
      (set_gain exRunning (201 / 4)).1._dev.gRdB
        = truncToInt (fsub ((set_gain exRunning (201 / 4)).1._dev.maxGain : ℚ)
            (set_gain exRunning (201 / 4)).1._dev.gain_dB) ∧
      (set_gain exRunning (201 / 4)).1.calls
        = exRunning.calls ++ [DriverCall.SetGr (set_gain exRunning (201 / 4)).1._dev.gRdB 1 0]) ∧
    (exFresh._dev.minGain ≤ 50 ∧ (50 : Int) ≤ exFresh._dev.maxGain ∧
      exFresh._dev.maxGain - 50 < 2 ^ 53 ∧
      gRdBConsistent (set_gain exFresh ((50 : Int) : ℚ)).1) ∧
    (gRdBTruncated exFresh ∧
      ∀ rate, gRdBTruncated (set_sample_rate exDriver exFresh rate).1) ∧
    (gRdBConsistent exFresh ∧
      ∀ rate, gRdBConsistent (set_sample_rate exDriver exFresh rate).1) :=
  ⟨⟨by decide!, by decide!, rfl, by decide!,
      ((C11_gRdB_truncated_difference exDriver exRunning (201 / 4) 50 (fun _ => 0) (fun _ => 0)
        (0, 0)).2.1 (by decide!) (by decide!)).1,
      ((C11_gRdB_truncated_difference exDriver exRunning (201 / 4) 50 (fun _ => 0) (fun _ => 0)
        (0, 0)).2.1 (by decide!) (by decide!)).2.1,
      ((C11_gRdB_truncated_difference exDriver exRunning (201 / 4) 50 (fun _ => 0) (fun _ => 0)
        (0, 0)).2.1 (by decide!) (by decide!)).2.2.1,
      ((C11_gRdB_truncated_difference exDriver exRunning (201 / 4) 50 (fun _ => 0) (fun _ => 0)
        (0, 0)).2.1 (by decide!) (by decide!)).2.2.2 rfl⟩,
    ⟨by decide!, by decide!, by decide!,
      (C11_gRdB_truncated_difference exDriver exFresh 50 50 (fun _ => 0) (fun _ => 0)
        (0, 0)).2.2.1 (by decide!) (by decide!) (by decide!)⟩,
    ⟨by decide!,
      ((C11_gRdB_truncated_difference exDriver exFresh 50 50 (fun _ => 0) (fun _ => 0)
        (0, 0)).2.2.2.1 (by decide!)).1⟩,
    ⟨by decide!,
      ((C11_gRdB_truncated_difference exDriver exFresh 50 50 (fun _ => 0) (fun _ => 0)
        (0, 0)).2.2.2.2 (by decide!)).1⟩⟩

/-- C12: for every frequency above 1675 MHz `set_gain_limits` leaves the
record, and with it `minGain` and `maxGain`, exactly as it was. -/
theorem C12_above_top_band_limits_kept (dev : sdrplay_dev) (f : ℚ) (hf : 1675000000 < f) :
    set_gain_limits dev f = dev ∧
    (set_gain_limits dev f).minGain = dev.minGain ∧
    (set_gain_limits dev f).maxGain = dev.maxGain := by
  have a1 : ¬ f ≤ 30000000 := by linarith
  have a2 : ¬ f ≤ 108000000 := by linarith
  have a3 : ¬ f ≤ 240000000 := by linarith
  have a4 : ¬ f ≤ 960000000 := by linarith
  have a5 : ¬ f ≤ 1675000000 := by linarith
  have h : set_gain_limits dev f = dev := by
    simp [set_gain_limits, SDRPLAY_AM_MAX, SDRPLAY_FM_MAX, SDRPLAY_B3_MAX, SDRPLAY_B45_MAX,
      SDRPLAY_L_MAX, a1, a2, a3, a4, a5]
  rw [h]
  exact ⟨rfl, rfl, rfl⟩

/-- C12 at 2 GHz on the record of the fresh object and on the record it has
after a retune to 500 MHz: the limits stay (5, 107), respectively (9, 94). -/
theorem C12_above_top_band_limits_kept_witness :
    (1675000000 : ℚ) < 2000000000 ∧
    set_gain_limits exFresh._dev 2000000000 = exFresh._dev ∧
    limitsOf (set_gain_limits (set_gain_limits exFresh._dev 500000000) 2000000000) = (9, 94) :=
  ⟨by norm_num, (C12_above_top_band_limits_kept exFresh._dev 2000000000 (by norm_num)).1,
    by
      rw [(C12_above_top_band_limits_kept (set_gain_limits exFresh._dev 500000000) 2000000000
        (by norm_num)).1]
      decide!⟩

/-- C13: the fresh object satisfies `0 ≤ _buf_offset ≤ samplesPerPacket`, and
so does the running session that `work(1)` leaves (packet size 4, offset 1);
the next `work(1)` on that session leaves `_buf_offset = -2`, outside the
interval. -/
theorem C13_offset_goes_negative :
    offsetInv exFresh ∧
    (work exDriver exFresh 1).map
        (fun w => (w.state._buf_offset, w.state._dev.samplesPerPacket, decide (offsetInv w.state)))
      = Except.ok (1, 4, true) ∧
    ((work exDriver exFresh 1).bind fun w => work exDriver w.state 1).map
        (fun w => (w.state._buf_offset, w.state._dev.samplesPerPacket, decide (offsetInv w.state)))
      = Except.ok (-2, 4, false) := by
  refine ⟨by decide!, by decide!, by decide!⟩

/-- C14: on a session that is neither running nor torn down, `work` is `work`
on the session as one `reinit_device` leaves it, marked running: that makes one
`mir_sdr_Init` call with the current parameters (then the DC mode if it is
set) and no `mir_sdr_Uninit`, reads no packet, sets the carry-over offset to 0
and the packet size to the one negotiated; a call that completes has made that
init, then only `mir_sdr_ReadPacket` calls, and leaves the session running with
the negotiated packet size.  On a running session a call that completes has
made no init, only `mir_sdr_ReadPacket` calls. -/
theorem C14_lazy_start (d : Driver) (s t : sdrplay_source_c) (n : Int) :
    (s._uninit = false → s._running = false →
      work d s n = work d { reinit_device d s with _running := true } n ∧
      (reinit_device d s).calls = s.calls ++
        [DriverCall.Init s._dev.gRdB (s._dev.fsHz / 1000000) (s._dev.rfHz / 1000000)
          s._dev.bwType s._dev.ifType]
        ++ (if s._dev.dcMode ≠ 0 then [DriverCall.SetDcMode 4 1] else []) ∧
      (reinit_device d s).inits = s.inits + 1 ∧
      (reinit_device d s).reads = s.reads ∧
      (reinit_device d s)._buf_offset = 0 ∧
      (reinit_device d s)._dev.samplesPerPacket
        = (d.spp s.inits).getD s._dev.samplesPerPacket ∧
      ∀ w, work d s n = Except.ok w →
        w.state._running = true ∧ w.state.inits = s.inits + 1 ∧
        w.state._dev.samplesPerPacket = (d.spp s.inits).getD s._dev.samplesPerPacket ∧
        w.state.calls = s.calls ++
          [DriverCall.Init s._dev.gRdB (s._dev.fsHz / 1000000) (s._dev.rfHz / 1000000)
            s._dev.bwType s._dev.ifType]
          ++ (if s._dev.dcMode ≠ 0 then [DriverCall.SetDcMode 4 1] else [])
          ++ List.replicate (w.state.reads - s.reads) DriverCall.ReadPacket) ∧
    (t._running = true → ∀ w, work d t n = Except.ok w →
      w.state.inits = t.inits ∧
      w.state.calls
        = t.calls ++ List.replicate (w.state.reads - t.reads) DriverCall.ReadPacket) := by
  constructor
  · intro hu hr
    have hcalls : (reinit_device d s).calls = s.calls ++
        [DriverCall.Init s._dev.gRdB (s._dev.fsHz / 1000000) (s._dev.rfHz / 1000000)
          s._dev.bwType s._dev.ifType]
        ++ (if s._dev.dcMode ≠ 0 then [DriverCall.SetDcMode 4 1] else []) := by
      rw [reinit_device_calls, hr]
      simp
    have hspp : (reinit_device d s)._dev.samplesPerPacket
        = (d.spp s.inits).getD s._dev.samplesPerPacket := by
      rw [reinit_device_dev]
    refine ⟨work_lazy_start d s n hu hr, hcalls, reinit_device_inits d s,
      reinit_device_reads d s, rfl, hspp, ?_⟩
    intro w hw
    rw [work_lazy_start d s n hu hr] at hw
    obtain ⟨h1, h2, h3, h4⟩ :=
      work_running_calls d { reinit_device d s with _running := true } n w rfl hw
    have h5 := (work_dev d { reinit_device d s with _running := true } n w hw).2 rfl
    refine ⟨h3, ?_, ?_, ?_⟩
    · rw [h1]
      exact reinit_device_inits d s
    · rw [h5]
      exact hspp
    · rw [h4]
      show (reinit_device d s).calls
        ++ List.replicate (w.state.reads - (reinit_device d s).reads) DriverCall.ReadPacket = _
      rw [hcalls, reinit_device_reads]
  · intro hr w hw
    obtain ⟨h1, _, _, h4⟩ := work_running_calls d t n w hr hw
    exact ⟨h1, h4⟩

/-- C14 on the fresh object with `exDriver`, request 4: the call completes,
having made one init and one read, with packet size 4; on the running example
object the same request makes the read only. -/
theorem C14_lazy_start_witness :
    exFresh._uninit = false ∧ exFresh._running = false ∧ exRunning._running = true ∧
    (∃ w, work exDriver exFresh 4 = Except.ok w ∧
      w.state._running = true ∧ w.state.inits = exFresh.inits + 1 ∧
      w.state._dev.samplesPerPacket
        = (exDriver.spp exFresh.inits).getD exFresh._dev.samplesPerPacket ∧
      w.state.calls = exFresh.calls ++
        [DriverCall.Init exFresh._dev.gRdB (exFresh._dev.fsHz / 1000000)
          (exFresh._dev.rfHz / 1000000) exFresh._dev.bwType exFresh._dev.ifType]
        ++ (if exFresh._dev.dcMode ≠ 0 then [DriverCall.SetDcMode 4 1] else [])
        ++ List.replicate (w.state.reads - exFresh.reads) DriverCall.ReadPacket) ∧
    (∃ w, work exDriver exRunning 4 = Except.ok w ∧ w.state.inits = exRunning.inits ∧
      w.state.calls = exRunning.calls
        ++ List.replicate (w.state.reads - exRunning.reads) DriverCall.ReadPacket) := by
  have hw : work exDriver exRunning ((4 : Nat) : Int) = Except.ok
      ⟨{ mir_sdr_ReadPacket exDriver exRunning with _buf_offset := 0 },
        packet exDriver exRunning.reads, ((4 : Nat) : Int)⟩ :=
    work_full_packet exDriver exRunning 4 rfl rfl rfl rfl (by decide) (by decide!) (by decide!)
      rfl rfl
  have hlazy := ((C14_lazy_start exDriver exFresh exRunning 4).1 rfl rfl).1
  have hw0 : work exDriver exFresh 4 = Except.ok
      ⟨{ mir_sdr_ReadPacket exDriver exRunning with _buf_offset := 0 },
        packet exDriver exRunning.reads, ((4 : Nat) : Int)⟩ := hlazy.trans hw
  exact ⟨rfl, rfl, rfl,
    ⟨_, hw0, ((C14_lazy_start exDriver exFresh exRunning 4).1 rfl rfl).2.2.2.2.2.2 _ hw0⟩,
    ⟨_, hw, (C14_lazy_start exDriver exFresh exRunning 4).2 rfl _ hw⟩⟩

/-- C15: `set_bandwidth(b)` stores the code resolved from `b`, the smallest
supported code at or above `b`, or the largest for a `b` above them all.  On a
running session it makes exactly the calls of one reinit: `mir_sdr_Uninit`,
then `mir_sdr_Init` carrying that code, then the DC mode once more if it is
set; it makes one init more and leaves the carry-over offset 0, whether or
not the code differs from the one before.  On a session that is not running
it makes no driver call and changes nothing but the stored code. -/
theorem C15_bandwidth_change_reinit (d : Driver) (s : sdrplay_source_c) (b : ℚ) :
    (set_bandwidth d s b).1._dev.bwType = resolvedCode b ∧
    (s._running = true →
      (set_bandwidth d s b).1.calls = s.calls ++
        [DriverCall.Uninit,
         DriverCall.Init s._dev.gRdB (s._dev.fsHz / 1000000) (s._dev.rfHz / 1000000)
           (resolvedCode b) s._dev.ifType]
        ++ (if s._dev.dcMode ≠ 0 then [DriverCall.SetDcMode 4 1] else []) ∧
      (set_bandwidth d s b).1.inits = s.inits + 1 ∧
      (set_bandwidth d s b).1._buf_offset = 0 ∧
      get_bandwidth (set_bandwidth d s b).1 = (set_bandwidth d s b).2) ∧
    (s._running = false →
      (set_bandwidth d s b).1.calls = s.calls ∧
      (set_bandwidth d s b).1.inits = s.inits ∧
      (set_bandwidth d s b).1 = { s with _dev := { s._dev with bwType := resolvedCode b } }) := by
  have hc : (if b ≤ 200000 then mir_sdr_BW_0_200
      else if b ≤ 300000 then mir_sdr_BW_0_300
      else if b ≤ 600000 then mir_sdr_BW_0_600
      else if b ≤ 1536000 then mir_sdr_BW_1_536
      else if b ≤ 5000000 then mir_sdr_BW_5_000
      else if b ≤ 6000000 then mir_sdr_BW_6_000
      else if b ≤ 7000000 then mir_sdr_BW_7_000
      else mir_sdr_BW_8_000) = resolvedCode b := by
    unfold resolvedCode supportedBandwidths
    by_cases h1 : b ≤ 200000
    · simp [List.find?, h1]
    by_cases h2 : b ≤ 300000
    · simp [List.find?, h1, h2]
    by_cases h3 : b ≤ 600000
    · simp [List.find?, h1, h2, h3]
    by_cases h4 : b ≤ 1536000
    · simp [List.find?, h1, h2, h3, h4]
    by_cases h5 : b ≤ 5000000
    · simp [List.find?, h1, h2, h3, h4, h5]
    by_cases h6 : b ≤ 6000000
    · simp [List.find?, h1, h2, h3, h4, h5, h6]
    by_cases h7 : b ≤ 7000000
    · simp [List.find?, h1, h2, h3, h4, h5, h6, h7]
    by_cases h8 : b ≤ 8000000
    · simp [List.find?, h1, h2, h3, h4, h5, h6, h7, h8]
    · simp [List.find?, h1, h2, h3, h4, h5, h6, h7, h8]
  refine ⟨?_, ?_, ?_⟩
  · rw [← hc]
    simp only [set_bandwidth]
    cases s._running
    · rfl
    · simp only [if_true, reinit_device_bwType]
  · intro hr
    simp only [set_bandwidth, hr, if_true, reinit_device_calls, reinit_device_inits,
      reinit_device_buf_offset, reinit_device_bwType]
    rw [hc]
    simp
  · intro hr
    simp only [set_bandwidth, hr]
    rw [hc]
    simp

/-- C15 on the running example object, whose code is `mir_sdr_BW_1_536`: a
request of 5 000 000 makes one reinit whose init carries `mir_sdr_BW_5_000`; a
request of 1 000 000 resolves to the code already stored and still makes one
reinit; on the fresh object, not running, a request makes no driver call. -/
theorem C15_bandwidth_change_reinit_witness :
    exRunning._running = true ∧ exRunning._dev.bwType = mir_sdr_BW_1_536 ∧
    resolvedCode 5000000 = mir_sdr_BW_5_000 ∧ resolvedCode 1000000 = mir_sdr_BW_1_536 ∧
    ((set_bandwidth exDriver exRunning 5000000).1.calls = exRunning.calls ++
        [DriverCall.Uninit,
         DriverCall.Init exRunning._dev.gRdB (exRunning._dev.fsHz / 1000000)
           (exRunning._dev.rfHz / 1000000) (resolvedCode 5000000) exRunning._dev.ifType]
        ++ (if exRunning._dev.dcMode ≠ 0 then [DriverCall.SetDcMode 4 1] else []) ∧
      (set_bandwidth exDriver exRunning 5000000).1.inits = exRunning.inits + 1 ∧
      (set_bandwidth exDriver exRunning 5000000).1._buf_offset = 0 ∧
      get_bandwidth (set_bandwidth exDriver exRunning 5000000).1
        = (set_bandwidth exDriver exRunning 5000000).2) ∧
    ((set_bandwidth exDriver exRunning 1000000).1.calls = exRunning.calls ++
        [DriverCall.Uninit,
         DriverCall.Init exRunning._dev.gRdB (exRunning._dev.fsHz / 1000000)
           (exRunning._dev.rfHz / 1000000) (resolvedCode 1000000) exRunning._dev.ifType]
        ++ (if exRunning._dev.dcMode ≠ 0 then [DriverCall.SetDcMode 4 1] else []) ∧
      (set_bandwidth exDriver exRunning 1000000).1.inits = exRunning.inits + 1 ∧
      (set_bandwidth exDriver exRunning 1000000).1._buf_offset = 0 ∧
      get_bandwidth (set_bandwidth exDriver exRunning 1000000).1
        = (set_bandwidth exDriver exRunning 1000000).2) ∧
    exFresh._running = false ∧
    (set_bandwidth exDriver exFresh 5000000).1.calls = exFresh.calls :=
  ⟨rfl, by decide!, by decide!, by decide!,
    (C15_bandwidth_change_reinit exDriver exRunning 5000000).2.1 rfl,
    (C15_bandwidth_change_reinit exDriver exRunning 1000000).2.1 rfl, rfl,
    ((C15_bandwidth_change_reinit exDriver exFresh 5000000).2.2 rfl).1⟩

/-- C16: `set_dc_offset_mode(Manual)` yields the very state, driver calls
included, that `set_dc_offset_mode(Off)` yields, with `dcMode = 0`;
`set_dc_offset_mode(Automatic)` stores `dcMode = 1`; any other mode value
leaves the state as it is. -/
theorem C16_dc_offset_modes (s : sdrplay_source_c) (mode : Int) :
    set_dc_offset_mode s DCOffsetManual = set_dc_offset_mode s DCOffsetOff ∧
    (set_dc_offset_mode s DCOffsetManual).calls = (set_dc_offset_mode s DCOffsetOff).calls ∧
    (set_dc_offset_mode s DCOffsetOff)._dev.dcMode = 0 ∧
    (set_dc_offset_mode s DCOffsetManual)._dev.dcMode = 0 ∧
    (set_dc_offset_mode s DCOffsetAutomatic)._dev.dcMode = 1 ∧
    (mode ≠ DCOffsetOff → mode ≠ DCOffsetManual → mode ≠ DCOffsetAutomatic →
      set_dc_offset_mode s mode = s) := by
  have h1 : set_dc_offset_mode s DCOffsetManual = set_dc_offset_mode s DCOffsetOff := by
    simp [set_dc_offset_mode, DCOffsetOff, DCOffsetManual]
  refine ⟨h1, by rw [h1], ?_, ?_, ?_, ?_⟩
  · simp only [set_dc_offset_mode, logCall]
    split_ifs <;> rfl
  · rw [h1]
    simp only [set_dc_offset_mode, logCall]
    split_ifs <;> rfl
  · simp only [set_dc_offset_mode, logCall, DCOffsetOff, DCOffsetManual, DCOffsetAutomatic]
    split_ifs <;> first | rfl | omega
  · intro a b c
    simp [set_dc_offset_mode, Ne.symm a, Ne.symm b, Ne.symm c]

/-- C16 on the running example object with the mode value 7, which is none of
the three modes: the state is left as it is. -/
theorem C16_dc_offset_modes_witness :
    (7 : Int) ≠ DCOffsetOff ∧ (7 : Int) ≠ DCOffsetManual ∧ (7 : Int) ≠ DCOffsetAutomatic ∧
    set_dc_offset_mode exRunning 7 = exRunning :=
  ⟨by decide, by decide, by decide,
    (C16_dc_offset_modes exRunning 7).2.2.2.2.2 (by decide) (by decide) (by decide)⟩

/-- C17: on the fresh object the limits are (5, 107) and `get_gain_range` lists
the integers 5, ..., 106; `set_gain(107)` returns 107, which is within the
limits and not in the list.  In every state `maxGain` is not in the list. -/
theorem C17_gain_range_excludes_maxGain :
    limitsOf exFresh._dev = (5, 107) ∧
    get_gain_range exFresh = (List.range 102).map (fun (k : Nat) => (5 : Int) + (k : Int)) ∧
    (set_gain exFresh 107).2 = 107 ∧
    (107 : Int) ∉ get_gain_range (set_gain exFresh 107).1 ∧
    (106 : Int) ∈ get_gain_range (set_gain exFresh 107).1 ∧
    ∀ s : sdrplay_source_c, s._dev.maxGain ∉ get_gain_range s := by
  refine ⟨by decide!, by decide!, by decide!, by decide!, by decide!, ?_⟩
  intro s h
  simp only [get_gain_range, List.mem_map, List.mem_range] at h
  obtain ⟨k, hk, he⟩ := h
  omega

/-- C18: from an empty carry-over, with packets of `P ≥ 1` samples that fit
the buffers, every run of `work` calls whose requests are positive and at
least `P - offset` whenever they meet a carry-over offset other than 0 (in
particular every run of requests of at least `P`) succeeds; each call writes
exactly as many items as requested, the items written are, in order, the first
`n1 + ... + nk` items of the packets delivered (each component times 1/2048),
and after the run, as after each call of it, `0 ≤ _buf_offset < P`. -/
theorem C18_conditional_losslessness (d : Driver) (P : Nat) (ns : List Int)
    (s : sdrplay_source_c)
    (hu : s._uninit = false) (hr : s._running = true) (ho : s._buf_offset = 0)
    (hP : s._dev.samplesPerPacket = (P : Int)) (hpos : 1 ≤ P)
    (hi : P ≤ s._bufi.length) (hq : P ≤ s._bufq.length)
    (hpk : ∀ k, (d.pkt k).xi.length = P ∧ (d.pkt k).xq.length = P)
    (hadm : admissible P 0 ns ∨ ∀ n ∈ ns, (P : Int) ≤ n) :
    (∃ s' outs, workSeq d s ns = Except.ok (s', outs) ∧
      outs.map (fun o => (o.length : Int)) = ns ∧
      outs.flatten = (packetsFrom d s.reads (s'.reads - s.reads)).take ns.sum.toNat ∧
      outs.flatten = (List.range' (s.reads * P) ns.sum.toNat).map (streamAt d P) ∧
      0 ≤ s'._buf_offset ∧ s'._buf_offset < (P : Int) ∧
      s'._buf_offset = ns.sum % (P : Int)) ∧
    (∀ k, ∃ sk outs, workSeq d s (ns.take k) = Except.ok (sk, outs) ∧
      0 ≤ sk._buf_offset ∧ sk._buf_offset < (P : Int)) := by
  have hinv : StreamInv d P s :=
    ⟨hu, hr, hP, hpos, hi, hq, by rw [ho], by rw [ho]; exact_mod_cast hpos,
      fun h => absurd ho h⟩
  have hadm' : admissible P s._buf_offset ns := by
    rw [ho]
    rcases hadm with h | h
    · exact h
    · exact admissible_of_ge P hpos ns h 0 le_rfl
  have hpos0 : streamPos P s = s.reads * P := by simp [streamPos, ho]
  constructor
  · obtain ⟨s', outs, h1, h2, h3, h4, h5, h6, h7, h8, h9⟩ :=
      workSeq_stream d P hpk ns s hinv hadm'
    have hle := streamPos_le d P s' h4
    rw [h5, hpos0] at hle
    have hN : ns.sum.toNat ≤ (s'.reads - s.reads) * P := by
      rw [Nat.sub_mul]
      omega
    rw [hpos0] at h3
    refine ⟨s', outs, h1, h2, ?_, h3, h4.2.2.2.2.2.2.1, h4.2.2.2.2.2.2.2.1, ?_⟩
    · rw [h3, packetsFrom_eq_stream d P _ _ hpk, map_range'_take _ _ _ _ hN]
    · rw [h7, ho, zero_add]
  · intro k
    obtain ⟨sk, outs, h1, _, _, h4, _⟩ :=
      workSeq_stream d P hpk (ns.take k) s hinv (admissible_take P ns _ k hadm')
    exact ⟨sk, outs, h1, h4.2.2.2.2.2.2.1, h4.2.2.2.2.2.2.2.1⟩

/-- C18 on the running example object with packet size 4: the requests 3, 5,
6, 2 (offsets met: 0, 3, 0, 2) put out the first 16 items of the stream. -/
theorem C18_conditional_losslessness_witness :
    exRunning._uninit = false ∧ exRunning._running = true ∧ exRunning._buf_offset = 0 ∧
    exRunning._dev.samplesPerPacket = ((4 : Nat) : Int) ∧ 1 ≤ 4 ∧
    4 ≤ exRunning._bufi.length ∧ 4 ≤ exRunning._bufq.length ∧
    (∀ k, (exDriver.pkt k).xi.length = 4 ∧ (exDriver.pkt k).xq.length = 4) ∧
    admissible 4 0 [3, 5, 6, 2] ∧
    ∃ s' outs, workSeq exDriver exRunning [3, 5, 6, 2] = Except.ok (s', outs) ∧
      outs.map (fun o => (o.length : Int)) = [3, 5, 6, 2] ∧
      outs.flatten
        = (packetsFrom exDriver exRunning.reads (s'.reads - exRunning.reads)).take
            (([3, 5, 6, 2] : List Int).sum).toNat ∧
      outs.flatten = (List.range' (exRunning.reads * 4)
        (([3, 5, 6, 2] : List Int).sum).toNat).map (streamAt exDriver 4) ∧
      0 ≤ s'._buf_offset ∧ s'._buf_offset < ((4 : Nat) : Int) ∧
      s'._buf_offset = ([3, 5, 6, 2] : List Int).sum % ((4 : Nat) : Int) :=
  ⟨rfl, rfl, rfl, rfl, by decide, by decide!, by decide!, fun _ => ⟨rfl, rfl⟩,
    by simp [admissible],
    (C18_conditional_losslessness exDriver 4 [3, 5, 6, 2] exRunning rfl rfl rfl rfl (by decide)
      (by decide!) (by decide!) (fun _ => ⟨rfl, rfl⟩) (Or.inl (by simp [admissible]))).1⟩

/-- C19 (counterexample): the running example object has its rate set to
`2^-44` Hz and one `work(2)`, which leaves the carry-over offset 2.  Setting
the rate to 10 000 Hz is an exact change of less than 10 kHz in magnitude, but
the `double` difference is `10000.0`: the call reinitialises, which resets
the offset to 0 and calls `mir_sdr_Uninit` and `mir_sdr_Init`. -/
theorem C19_rate_step_below_threshold_resets_offset :
    (work exDriver (set_sample_rate exDriver exRunning (1 / 2 ^ 44)).1 2).map (fun w => w.state)
      = Except.ok exTinyRate ∧
    exTinyRate._running = true ∧ exTinyRate._dev.fsHz = 1 / 2 ^ 44 ∧
    exTinyRate._buf_offset = 2 ∧
    |(10000 : ℚ) - exTinyRate._dev.fsHz| < 10000 ∧
    fsub 10000 exTinyRate._dev.fsHz = 10000 ∧
    (set_sample_rate exDriver exTinyRate 10000).1._buf_offset = 0 ∧
    streamState (set_sample_rate exDriver exTinyRate 10000).1 ≠ streamState exTinyRate ∧
    (set_sample_rate exDriver exTinyRate 10000).1.calls = exTinyRate.calls ++
      [DriverCall.Uninit,
       DriverCall.Init 60 (10000 / 1000000) (200000000 / 1000000) mir_sdr_BW_1_536
         mir_sdr_IF_Zero] ∧
    (set_sample_rate exDriver exTinyRate 10000).1.inits = exTinyRate.inits + 1 := by
  refine ⟨by decide!, by decide!, by decide!, by decide!, by decide!, by decide!, by decide!,
    by decide!, by decide!, by decide!⟩

/-- C19 (amended): `set_gain`, `set_gain_mode`, `set_dc_offset_mode`,
`set_freq_corr`, `set_antenna`, and `set_center_freq` and `set_sample_rate`
called with a change whose `double` difference `d` has `|d| < 10000` (which
holds exactly when the exact difference is less than `10000 - 2^-40` in
magnitude), leave the carry-over offset, the two sample buffers,
`samplesPerPacket` and the running flag as they were and make no
`mir_sdr_Init` and no `mir_sdr_Uninit` call, in every state. -/
theorem C19_in_place_keeps_stream_state (d : Driver) (s : sdrplay_source_c)
    (g ppm f rate : ℚ) (automatic : Bool) (mode : Int) (antenna : String) :
    quietStep s (set_gain s g).1 ∧
    quietStep s (set_gain_mode s automatic).1 ∧
    quietStep s (set_dc_offset_mode s mode) ∧
    quietStep s (set_freq_corr s ppm).1 ∧
    quietStep s (set_antenna s antenna).1 ∧
    (|fsub f s._dev.rfHz| < 10000 → quietStep s (set_center_freq d s f).1) ∧
    (|fsub rate s._dev.fsHz| < 10000 → quietStep s (set_sample_rate d s rate).1) ∧
    (|f - s._dev.rfHz| < 10000 - 1 / 2 ^ 40 → quietStep s (set_center_freq d s f).1) ∧
    (|rate - s._dev.fsHz| < 10000 - 1 / 2 ^ 40 → quietStep s (set_sample_rate d s rate).1) := by
  have hf : |fsub f s._dev.rfHz| < 10000 → quietStep s (set_center_freq d s f).1 := by
    intro h
    simp only [set_center_freq, h, if_true]
    split_ifs
    · exact quietStep_logCall _ _ _ rfl (by simp [streamState, set_gain_limits_samplesPerPacket]) rfl rfl rfl
    · refine ⟨by simp [streamState, set_gain_limits_samplesPerPacket], rfl, rfl, [], by simp, by simp⟩
  have hrate : |fsub rate s._dev.fsHz| < 10000 → quietStep s (set_sample_rate d s rate).1 := by
    intro h
    simp only [set_sample_rate, h, if_true]
    split_ifs
    · exact quietStep_logCall _ _ _ rfl rfl rfl rfl rfl
    · exact ⟨rfl, rfl, rfl, [], by simp, by simp⟩
  refine ⟨?_, ?_, ?_, quietStep_refl s, quietStep_refl s, hf, hrate,
    fun h => hf ((abs_fl_lt_iff _).mpr h), fun h => hrate ((abs_fl_lt_iff _).mpr h)⟩
  · simp only [set_gain]
    split_ifs with h1 h2 h3
    all_goals first
      | exact quietStep_logCall _ _ _ rfl rfl rfl rfl rfl
      | exact ⟨rfl, rfl, rfl, [], by simp, by simp⟩
  · exact ⟨rfl, rfl, rfl, [], by simp [set_gain_mode], by simp⟩
  · simp only [set_dc_offset_mode]
    split_ifs
    all_goals first
      | exact quietStep_logCall _ _ _ rfl rfl rfl rfl rfl
      | exact ⟨rfl, rfl, rfl, [], by simp, by simp⟩

/-- C19 on the running example object, tuned to 200 MHz at 2.048 MS/s: a
retune by 5 kHz and a rate change by 5 kHz, whose `double` differences are
5000, leave the stream state as it is and make no init and no uninit. -/
theorem C19_in_place_keeps_stream_state_witness :
    (|fsub 200005000 exRunning._dev.rfHz| < 10000 ∧
      quietStep exRunning (set_center_freq exDriver exRunning 200005000).1) ∧
    (|fsub 2053000 exRunning._dev.fsHz| < 10000 ∧
      quietStep exRunning (set_sample_rate exDriver exRunning 2053000).1) ∧
    (|(200005000 : ℚ) - exRunning._dev.rfHz| < 10000 - 1 / 2 ^ 40 ∧
      quietStep exRunning (set_center_freq exDriver exRunning 200005000).1) ∧
    (|(2053000 : ℚ) - exRunning._dev.fsHz| < 10000 - 1 / 2 ^ 40 ∧
      quietStep exRunning (set_sample_rate exDriver exRunning 2053000).1) :=
  ⟨⟨by decide!,
      (C19_in_place_keeps_stream_state exDriver exRunning 0 0 200005000 2053000 false 0
        "RX").2.2.2.2.2.1 (by decide!)⟩,
    ⟨by decide!,
      (C19_in_place_keeps_stream_state exDriver exRunning 0 0 200005000 2053000 false 0
        "RX").2.2.2.2.2.2.1 (by decide!)⟩,
    ⟨by decide!,
      (C19_in_place_keeps_stream_state exDriver exRunning 0 0 200005000 2053000 false 0
        "RX").2.2.2.2.2.2.2.1 (by decide!)⟩,
    ⟨by decide!,
      (C19_in_place_keeps_stream_state exDriver exRunning 0 0 200005000 2053000 false 0
        "RX").2.2.2.2.2.2.2.2 (by decide!)⟩⟩

/-- C20: with a packet size of at least 1 a call of `work` does not run on for
ever, on a running session and, with the size negotiated at the lazy start, on
one that is not running; the full-packet loop ends within `cnt + 1`
iterations (fuel beyond the count changes nothing), each iteration passing on
the strictly smaller count `cnt - samplesPerPacket`.  With the packet size 0,
which is what the constructor leaves, the loop entered with a count of at
least 0 never ends, whatever the fuel, and so does not `work` from an empty
carry-over. -/
theorem C20_pull_loop_terminates (d : Driver) (s : sdrplay_source_c) (n cnt : Int)
    (fuel extra : Nat) (memi memq : Nat → Int) (lim0 : Int × Int) :
    (s._running = true → 1 ≤ s._dev.samplesPerPacket →
      work d s n ≠ Except.error Fault.diverges) ∧
    (s._running = false → 1 ≤ (d.spp s.inits).getD s._dev.samplesPerPacket →
      work d s n ≠ Except.error Fault.diverges) ∧
    (1 ≤ s._dev.samplesPerPacket → cnt < (fuel : Int) →
      work_loop d (fuel + extra) s cnt = work_loop d fuel s cnt ∧
      work_loop d fuel s cnt ≠ Except.error Fault.diverges) ∧
    (1 ≤ s._dev.samplesPerPacket → 0 ≤ cnt - s._dev.samplesPerPacket →
      cnt - s._dev.samplesPerPacket < cnt ∧
      (mir_sdr_ReadPacket d s)._dev.samplesPerPacket = s._dev.samplesPerPacket ∧
      work_loop d (fuel + 1) s cnt =
        (copyOut (mir_sdr_ReadPacket d s)._bufi (mir_sdr_ReadPacket d s)._bufq 0
            s._dev.samplesPerPacket).bind fun xs =>
          (work_loop d fuel (mir_sdr_ReadPacket d s) (cnt - s._dev.samplesPerPacket)).map
            fun r => (r.1, r.2.1, xs ++ r.2.2)) ∧
    (s._dev.samplesPerPacket = 0 → 0 ≤ cnt →
      (∀ f, work_loop d f s cnt = Except.error Fault.diverges) ∧
      (s._uninit = false → s._running = true → s._buf_offset = 0 →
        work d s cnt = Except.error Fault.diverges)) ∧
    (make_sdrplay_source_c memi memq lim0)._dev.samplesPerPacket = 0 := by
  refine ⟨fun hr hP => work_not_diverges d s n hr hP, ?_,
    fun hP hc => work_loop_fuel d fuel extra s cnt hP hc, ?_, ?_,
    (make_sdrplay_source_c_gain memi memq lim0).2.2.2.2.1⟩
  · intro hr hP
    cases hu : s._uninit
    · rw [work_lazy_start d s n hu hr]
      apply work_not_diverges _ _ _ rfl
      show 1 ≤ (reinit_device d s)._dev.samplesPerPacket
      rw [reinit_device_dev]
      exact hP
    · simp [work, hu]
  · intro hP hc
    refine ⟨by omega, rfl, ?_⟩
    cases hco : copyOut (mir_sdr_ReadPacket d s)._bufi (mir_sdr_ReadPacket d s)._bufq 0
        s._dev.samplesPerPacket with
    | error e =>
      have hd : (mir_sdr_ReadPacket d s)._dev = s._dev := rfl
      simp only [work_loop, hc, if_true, hd, hco, bind, Except.bind]
    | ok xs =>
      rw [work_loop_step d fuel s cnt xs (by omega) hco]
      rfl
  · intro hP hc
    have hloop : ∀ f, work_loop d f s cnt = Except.error Fault.diverges :=
      fun f => work_loop_diverges d f s cnt (by omega) (by omega)
    refine ⟨hloop, ?_⟩
    intro hu hr ho
    rw [work_eq_rest d s cnt hu hr]
    simp only [ho, ne_eq, not_true_eq_false, if_false, work_rest, hloop, bind, Except.bind]

/-- C20 on the running example object (packet size 4), and on the fresh object
marked running, whose packet size is still 0. -/
theorem C20_pull_loop_terminates_witness :
    exRunning._running = true ∧ (1 : Int) ≤ exRunning._dev.samplesPerPacket ∧
    work exDriver exRunning 10 ≠ Except.error Fault.diverges ∧
    ((10 : Int) < ((11 : Nat) : Int) ∧
      work_loop exDriver (11 + 5) exRunning 10 = work_loop exDriver 11 exRunning 10) ∧
    ((0 : Int) ≤ 10 - exRunning._dev.samplesPerPacket ∧
      10 - exRunning._dev.samplesPerPacket < 10) ∧
    ({ exFresh with _running := true }._dev.samplesPerPacket = 0 ∧ (0 : Int) ≤ 10 ∧
      ∀ f, work_loop exDriver f { exFresh with _running := true } 10
        = Except.error Fault.diverges) :=
  ⟨rfl, by decide!,
    (C20_pull_loop_terminates exDriver exRunning 10 10 11 5 (fun _ => 0) (fun _ => 0) (0, 0)).1
      rfl (by decide!),
    ⟨by decide,
      ((C20_pull_loop_terminates exDriver exRunning 10 10 11 5 (fun _ => 0) (fun _ => 0)
        (0, 0)).2.2.1 (by decide!) (by decide)).1⟩,
    ⟨by decide!,
      ((C20_pull_loop_terminates exDriver exRunning 10 10 11 5 (fun _ => 0) (fun _ => 0)
        (0, 0)).2.2.2.1 (by decide!) (by decide!)).1⟩,
    ⟨by decide!, by decide,
      ((C20_pull_loop_terminates exDriver { exFresh with _running := true } 10 10 11 5
        (fun _ => 0) (fun _ => 0) (0, 0)).2.2.2.2.1 (by decide!) (by decide)).1⟩⟩

end Sdrplay
